import Mathlib

/-!
# tio4b/vpn-project: framing, cipher, packet inspector and server session core

A shallow embedding of the Go sources:

* `protocol/protocol.go`  (`NewMessage`, `WriteMessage`, `ReadMessage`,
  `CreateHandshake`, `ParseHandshake`)
* `protocol/packet.go`    (`ParseIPPacket`, `ParseIPv4Packet`, `ParseIPv6Packet`)
* `crypto/crypto.go`      (`NewCipher`, `Cipher.Encrypt`, `Cipher.Decrypt`)
* `server/server.go`      (`handleConnection`, `tunReader`, `clientCleaner`)
* `client/client.go`      (`serverReader`)

Conventions.  A byte is a natural number (below 256 on the wire); the code
only copies bytes, or reduces them explicitly, so the definitions are stated
over all naturals and the arithmetic of `uint8` and `uint32` is written with an
explicit modulus.  A Go `string` is its byte sequence.  A `net.Conn` is a
record holding the bytes still to be read, the bytes written so far, and two
flags.  An index or slice outside a slice is the runtime panic of Go, kept
as the error `Error.indexOutOfRange`.  An instant is a count of nanoseconds.
The goroutines of the server are taken one step at a time: the handshake of
a connection, one pass of a frame loop, one scan of the cleaner, one pass of
the TUN reader (`Reach`); `handleConnection` is also given run to its end on
one stream.
-/

namespace Vpn

/-! ## Bytes, errors, streams -/

abbrev Byte := Nat

/-- Errors the code can surface: the three of package `io` and `net`, the
`errors.New` values of the sources, and the index-out-of-range panic. -/
inductive Error where
  | eof
  | unexpectedEOF
  | useOfClosed
  | brokenPipe
  | indexOutOfRange
  | text (s : String)
deriving DecidableEq, Repr

/-- One endpoint of a `net.Conn`: `input` are the bytes the peer sends before
it ends the stream, `output` the bytes written so far, `closed` is set by
`Close`, `broken` says the transport refuses writes (the peer is gone). -/
structure Conn where
  input : List Byte
  output : List Byte
  closed : Bool
  broken : Bool
deriving DecidableEq, Repr

/-- The call `io.ReadFull(conn, buf)` with `len(buf) = n`: all `n` bytes or an
error; a short stream is drained, with `io.EOF` when nothing was read and
`io.ErrUnexpectedEOF` otherwise. -/
def readFull (c : Conn) (n : Nat) : Except Error (List Byte) × Conn :=
  if n = 0 then (.ok [], c)
  else if c.closed then (.error .useOfClosed, c)
  else if n ≤ c.input.length then
    (.ok (c.input.take n), { c with input := c.input.drop n })
  else
    (.error (if c.input.isEmpty then .eof else .unexpectedEOF), { c with input := [] })

/-- The call `conn.Write(b)`. -/
def Conn.Write (c : Conn) (b : List Byte) : Except Error Unit × Conn :=
  if c.closed then (.error .useOfClosed, c)
  else if c.broken then (.error .brokenPipe, c)
  else (.ok (), { c with output := c.output ++ b })

/-- The call `conn.Close()`. -/
def Conn.Close (c : Conn) : Conn := { c with closed := true }

/-- Big-endian bytes of a `uint32` (`binary.BigEndian.PutUint32`). -/
def putUint32 (v : Nat) : List Byte :=
  [(v >>> 24) % 256, (v >>> 16) % 256, (v >>> 8) % 256, v % 256]

/-- Big-endian `uint32` of four bytes (`binary.BigEndian.Uint32`). -/
def uint32 (b : List Byte) : Nat :=
  (b.getD 3 0 ||| b.getD 2 0 <<< 8 ||| b.getD 1 0 <<< 16 ||| b.getD 0 0 <<< 24) % 2 ^ 32

/-! ## protocol/protocol.go -/

def TypeHandshake : Byte := 1
def TypeHandshakeAck : Byte := 2
def TypeKeepAlive : Byte := 3
def TypeDisconnect : Byte := 4
def TypeData : Byte := 10
def TypeError : Byte := 255

/-- The field `Type` of the source is `Type_` here (a reserved word). -/
structure Header where
  Type_ : Byte
  Length : Nat
deriving DecidableEq, Repr

def HeaderSize : Nat := 5

structure Message where
  Header : Header
  Data : List Byte
deriving DecidableEq, Repr

def NewMessage (msgType : Byte) (data : List Byte) : Message :=
  { Header := { Type_ := msgType, Length := data.length % 2 ^ 32 }, Data := data }

/-- `WriteMessage`: the type byte, the length as four big-endian bytes, then
the data when the header length is positive; the first failing write ends it. -/
def WriteMessage (conn : Conn) (msg : Message) : Except Error Unit × Conn :=
  match conn.Write [msg.Header.Type_] with
  | (.error e, c1) => (.error e, c1)
  | (.ok _, c1) =>
    match c1.Write (putUint32 msg.Header.Length) with
    | (.error e, c2) => (.error e, c2)
    | (.ok _, c2) =>
      if msg.Header.Length > 0 then
        match c2.Write msg.Data with
        | (.error e, c3) => (.error e, c3)
        | (.ok _, c3) => (.ok (), c3)
      else (.ok (), c2)

def tooLarge : Error := .text "too Large message"

/-- `ReadMessage`: one type byte, four length bytes, the cap of 1024*1024,
then `Length` bytes of data when `Length > 0`. -/
def ReadMessage (conn : Conn) : Except Error Message × Conn :=
  match readFull conn 1 with
  | (.error e, c1) => (.error e, c1)
  | (.ok t, c1) =>
    match readFull c1 4 with
    | (.error e, c2) => (.error e, c2)
    | (.ok l, c2) =>
      let length := uint32 l
      if length > 1024 * 1024 then (.error tooLarge, c2)
      else if length > 0 then
        match readFull c2 length with
        | (.error e, c3) => (.error e, c3)
        | (.ok d, c3) => (.ok { Header := { Type_ := t.getD 0 0, Length := length }, Data := d }, c3)
      else (.ok { Header := { Type_ := t.getD 0 0, Length := length }, Data := [] }, c2)

/-- `CreateHandshake`: version, the length of the IP text as one byte, the IP
text, the key. -/
def CreateHandshake (version : Byte) (clientIP : List Byte) (sharedKey : List Byte) : Message :=
  NewMessage TypeHandshake (version :: (clientIP.length % 256) :: (clientIP ++ sharedKey))

structure HandshakeMsg where
  Version : Byte
  ClientIP : List Byte
  SharedKey : List Byte
deriving DecidableEq, Repr

/-- Checked index `data[i]`. -/
def index (data : List Byte) (i : Nat) : Except Error Byte :=
  if h : i < data.length then .ok (data.get ⟨i, h⟩) else .error .indexOutOfRange

/-- Checked slice `data[lo:hi]`. -/
def slice (data : List Byte) (lo hi : Nat) : Except Error (List Byte) :=
  if lo ≤ hi ∧ hi ≤ data.length then .ok ((data.take hi).drop lo) else .error .indexOutOfRange

/-- Checked slice `data[lo:]`. -/
def sliceFrom (data : List Byte) (lo : Nat) : Except Error (List Byte) :=
  if lo ≤ data.length then .ok (data.drop lo) else .error .indexOutOfRange

def ParseHandshake (data : List Byte) : Except Error HandshakeMsg := do
  if data.length < 2 then throw (.text "invalid handshake packet")
  let version ← index data 0
  let IPLen ← index data 1
  if data.length < 2 + IPLen then throw (.text "invalid handshake packet")
  let clientIP ← slice data 2 (2 + IPLen)
  let sharedKey ← sliceFrom data (2 + IPLen)
  return { Version := version, ClientIP := clientIP, SharedKey := sharedKey }

/-! ## protocol/packet.go -/

structure IPPacket where
  Raw : List Byte
  Version : Byte
  Protocol : Byte
  SrcIp : List Byte
  DstIp : List Byte
  Payload : List Byte
deriving DecidableEq, Repr

/-- `ParseIPv4Packet`; `ihl` is computed in `uint8` as in the source. -/
def ParseIPv4Packet (packet : IPPacket) (data : List Byte) : Except Error IPPacket := do
  if data.length < 20 then throw (.text "packet too short")
  let b0 ← index data 0
  let ihl := ((b0 &&& 0x0F) * 4) % 256
  if data.length < ihl then throw (.text "invalid IPv4 header length")
  let protocol ← index data 9
  let src ← slice data 12 16
  let dst ← slice data 16 20
  let payload ← if data.length > ihl then sliceFrom data ihl else pure packet.Payload
  return { packet with Protocol := protocol, SrcIp := src, DstIp := dst, Payload := payload }

def ParseIPv6Packet (packet : IPPacket) (data : List Byte) : Except Error IPPacket := do
  if data.length < 40 then throw (.text "packet too short")
  let protocol ← index data 6
  let src ← slice data 8 24
  let dst ← slice data 24 40
  let payload ← if data.length > 40 then sliceFrom data 40 else pure packet.Payload
  return { packet with Protocol := protocol, SrcIp := src, DstIp := dst, Payload := payload }

def ParseIPPacket (data : List Byte) : Except Error IPPacket := do
  if data.length < 20 then throw (.text "packet too short")
  let b0 ← index data 0
  let packet : IPPacket :=
    { Raw := data, Version := b0 >>> 4, Protocol := 0, SrcIp := [], DstIp := [], Payload := [] }
  if packet.Version = 4 then ParseIPv4Packet packet data
  else if packet.Version = 6 then ParseIPv6Packet packet data
  else throw (.text "invalid packet")

/-! ## crypto/crypto.go -/

/-- The AES-CTR keystream, a function of key and IV: `Keystream` maps key, IV
and position to the keystream byte (`aes.NewCipher` and `cipher.NewCTR` are
library code). -/
abbrev Keystream := List Byte → List Byte → Nat → Byte

/-- The `block` of the source is `aes.NewCipher(key)`, a function of `key`. -/
structure Cipher where
  key : List Byte
deriving DecidableEq, Repr

def BlockSize : Nat := 16

def NewCipher (key : List Byte) : Except Error Cipher :=
  if key.length ≠ 32 then .error (.text "key must be 32 bytes") else .ok { key := key }

/-- The call `cipher.NewCTR(block, iv).XORKeyStream(dst, src)`, giving `dst`. -/
def XORKeyStream (ks : Keystream) (key iv src : List Byte) : List Byte :=
  List.zipWith (fun b i => b ^^^ ks key iv i) src (List.range src.length)

/-- The call `io.ReadFull(rand.Reader, iv)`; `rnd` are the bytes the random
source can supply. -/
def readRandom (rnd : List Byte) (n : Nat) : Except Error (List Byte) :=
  if n ≤ rnd.length then .ok (rnd.take n)
  else .error (if rnd.isEmpty then .eof else .unexpectedEOF)

def Cipher.Encrypt (ks : Keystream) (c : Cipher) (rnd : List Byte) (packet : List Byte) :
    Except Error (List Byte) :=
  match readRandom rnd BlockSize with
  | .error e => .error e
  | .ok iv => .ok (iv ++ XORKeyStream ks c.key iv packet)

def Cipher.Decrypt (ks : Keystream) (c : Cipher) (ciphertext : List Byte) :
    Except Error (List Byte) :=
  if ciphertext.length < BlockSize then .error (.text "ciphertext too short")
  else
    let iv := ciphertext.take BlockSize
    let ciphertext := ciphertext.drop BlockSize
    .ok (XORKeyStream ks c.key iv ciphertext)

/-! ## server/server.go -/

/-- A session record.  `Conn` is the handle of the stream (the streams live in
`Server.conns`); the mutex `mu` has no content. -/
structure Client where
  ID : String
  Conn : Nat
  IP : List Byte
  Cipher : Cipher
  LastSeen : Int
deriving DecidableEq, Repr

/-- The fields of `config.Config` the server reads. -/
structure Config where
  MTU : Nat
  SharedKey : List Byte
  Timeout : Int
deriving DecidableEq, Repr

/-- The `Server` of the source together with what it points to: `clients` is
the map `map[string]*Client` as a list of entries, `conns` the streams by
handle, `tun` the packets written to the TUN device so far, `accepted` the
number of streams the listener has handed out (their handles). -/
structure Server where
  config : Config
  clients : List (String × Client)
  conns : Nat → Conn
  tun : List (List Byte)
  accepted : Nat

/-- A stream nobody has opened. -/
def noConn : Conn := { input := [], output := [], closed := true, broken := true }

def NewServer (config : Config) : Server :=
  { config := config, clients := [], conns := fun _ => noConn, tun := [], accepted := 0 }

/-- Map assignment `m[k] = v`. -/
def mapSet (m : List (String × Client)) (k : String) (v : Client) : List (String × Client) :=
  (k, v) :: m.filter (fun e => e.1 ≠ k)

/-- Map deletion `delete(m, k)`. -/
def mapDelete (m : List (String × Client)) (k : String) : List (String × Client) :=
  m.filter (fun e => e.1 ≠ k)

/-- Map lookup `m[k]`. -/
def mapGet (m : List (String × Client)) (k : String) : Option Client :=
  (m.find? (fun e => e.1 = k)).map Prod.snd

def setConn (conns : Nat → Conn) (k : Nat) (c : Conn) : Nat → Conn :=
  fun j => if j = k then c else conns j

/-- The call `conn.Close()` on the stream with handle `k`. -/
def Server.closeConn (server : Server) (k : Nat) : Server :=
  { server with conns := setConn server.conns k (server.conns k).Close }

/-- The call `listener.Accept()`: a new open stream whose peer will send `input`;
`broken` says whether the transport will refuse the writes of the server. -/
def accept (server : Server) (input : List Byte) (broken : Bool) : Server × Nat :=
  ({ server with
      conns := setConn server.conns server.accepted
        { input := input, output := [], closed := false, broken := broken }
      accepted := server.accepted + 1 },
   server.accepted)

def maxDuration : Int := 2 ^ 63 - 1
def minDuration : Int := -(2 ^ 63)

/-- The call `t.Sub(u)` on instants counted in nanoseconds: the difference,
saturated to the range of `time.Duration`. -/
def timeSub (t u : Int) : Int :=
  if t - u > maxDuration then maxDuration
  else if t - u < minDuration then minDuration
  else t - u

/-- Lines 80-119 of `handleConnection`: the handshake.  `now` is what
`time.Now()` returns.  The result is the new state and, when the frame loop
is entered, the session record; on every `return` the deferred
`conn.Close()` has run. -/
def handshake (server : Server) (conn : Nat) (clientAddr : String) (now : Int) :
    Server × Option Client :=
  match ReadMessage (server.conns conn) with
  | (.error _, c1) => (({ server with conns := setConn server.conns conn c1 }).closeConn conn, none)
  | (.ok message, c1) =>
    let server := { server with conns := setConn server.conns conn c1 }
    -- a type other than TypeHandshake is logged only
    match ParseHandshake message.Data with
    | .error _ => (server.closeConn conn, none)
    | .ok handshake =>
      match NewCipher server.config.SharedKey with
      | .error _ => (server.closeConn conn, none)
      | .ok cipher =>
        let client : Client :=
          { ID := clientAddr, Conn := conn, IP := handshake.ClientIP, Cipher := cipher,
            LastSeen := now }
        let server := { server with clients := mapSet server.clients client.ID client }
        let ackMessage := NewMessage TypeHandshakeAck [79, 75]
        match WriteMessage (server.conns conn) ackMessage with
        | (.error _, c2) =>
          (({ server with conns := setConn server.conns conn c2 }).closeConn conn, none)
        | (.ok _, c2) => ({ server with conns := setConn server.conns conn c2 }, some client)

/-- The assignment `client.LastSeen = time.Now()` of the handler of the stream
`conn`, seen from the table: it writes the record that holds this stream. -/
def touch (conn : Nat) (now : Int) (e : String × Client) : String × Client :=
  if e.2.Conn = conn then (e.1, { e.2 with LastSeen := now }) else e

/-- How one pass of the frame loop ends. -/
inductive Ctl where
  | next
  | break_
  | return_
deriving DecidableEq, Repr

/-- The body of the frame loop of `handleConnection` (lines 121-157) for the
handler holding `client`; the session record is found in the table by its
stream.  The write to the TUN is taken to succeed (the source logs its
failure and goes on). -/
def frameBody (ks : Keystream) (server : Server) (client : Client) (now : Int) : Server × Ctl :=
  let conn := client.Conn
  match ReadMessage (server.conns conn) with
  | (.error _, c1) => ({ server with conns := setConn server.conns conn c1 }, .break_)
  | (.ok message, c1) =>
    let server := { server with conns := setConn server.conns conn c1 }
    let server := { server with clients := server.clients.map (touch conn now) }
    if message.Header.Type_ = TypeData then
      match client.Cipher.Decrypt ks message.Data with
      | .error _ => (server, .next)
      | .ok plaintext =>
        match ParseIPPacket plaintext with
        | .error _ => (server, .next)
        | .ok _ => ({ server with tun := server.tun ++ [plaintext] }, .next)
    else if message.Header.Type_ = TypeKeepAlive then
      let keepAliveMessage := NewMessage TypeKeepAlive []
      match WriteMessage (server.conns conn) keepAliveMessage with
      | (_, c2) => ({ server with conns := setConn server.conns conn c2 }, .next)
    else if message.Header.Type_ = TypeDisconnect then (server, .return_)
    else (server, .next)

/-- The frame loop and what follows it (lines 120-164): `break` reaches the
`delete`, `return` does not; both run the deferred `conn.Close()`.  `times k`
is what `time.Now()` returns in pass `k`.  With no fuel left the result is
`none`. -/
def frameLoop (ks : Keystream) (times : Nat → Int) :
    Nat → Nat → Server → Client → Option Server
  | 0, _, _, _ => none
  | fuel + 1, k, server, client =>
    match frameBody ks server client (times k) with
    | (server, .next) => frameLoop ks times fuel (k + 1) server client
    | (server, .break_) =>
      some (({ server with clients := mapDelete server.clients client.ID }).closeConn client.Conn)
    | (server, .return_) => some (server.closeConn client.Conn)

/-- `handleConnection` run to its end on the stream `conn`, whose input holds
all the peer sends.  Every pass of the loop that goes on has read a frame, so
one more pass than there are bytes is enough. -/
def handleConnection (ks : Keystream) (server : Server) (conn : Nat) (clientAddr : String)
    (times : Nat → Int) : Option Server :=
  match handshake server conn clientAddr (times 0) with
  | (server, none) => some server
  | (server, some client) =>
    frameLoop ks times ((server.conns conn).input.length + 1) 1 server client

/-- One reading of the clock by `clientCleaner` and the test it makes. -/
def expired (now : Int) (timeout : Int) (client : Client) : Bool :=
  decide (timeSub now client.LastSeen > timeout)

/-- The body of the loop of `clientCleaner` (lines 225-231) at one entry. -/
def cleanerVisit (now : Int) (timeout : Int) (s : Server) (e : String × Client) : Server :=
  let client := e.2
  if expired now timeout client then
    { s.closeConn client.Conn with clients := mapDelete s.clients client.ID }
  else s

/-- One scan of `clientCleaner` (lines 222-233) at time `now`: the loop over
the map visits each entry once (an entry is deleted only at its own visit,
the keys being the `ID`s), closing and deleting the expired ones. -/
def cleanerScan (server : Server) (now : Int) : Server :=
  server.clients.foldl (cleanerVisit now server.config.Timeout) server

/-- What every table the server builds satisfies: one entry per key, and the
key of an entry is the `ID` of its record. -/
def TableWF (m : List (String × Client)) : Prop :=
  (m.map Prod.fst).Nodup ∧ ∀ e ∈ m, e.1 = e.2.ID

/-- No two entries hold the same stream. -/
def ConnsDistinct (m : List (String × Client)) : Prop :=
  ∀ e1 ∈ m, ∀ e2 ∈ m, e1.2.Conn = e2.2.Conn → e1 = e2

/-- One pass of the loop of `tunReader` (lines 173-209).  `read` is what
`tun.Read` gives (the packet is `buffer[:n]`), `rnd` the bytes of the random
source, `ipString` the text form `net.IP.String` (library code).  The loop over
the map stops at the first entry whose `IP` is the text of the destination. -/
def tunReaderPass (ks : Keystream) (ipString : List Byte → List Byte) (server : Server)
    (read : Except Error (List Byte)) (rnd : List Byte) : Server :=
  match read with
  | .error _ => server
  | .ok buffer =>
    match ParseIPPacket buffer with
    | .error _ => server
    | .ok packet =>
      match server.clients.find? (fun e => e.2.IP = ipString packet.DstIp) with
      | none => server
      | some e =>
        let targetClient := e.2
        match targetClient.Cipher.Encrypt ks rnd buffer with
        | .error _ => server
        | .ok ciphertext =>
          let message := NewMessage TypeData ciphertext
          match WriteMessage (server.conns targetClient.Conn) message with
          | (_, c) => { server with conns := setConn server.conns targetClient.Conn c }

/-- A keystream to evaluate examples with. -/
def exampleKeystream : Keystream :=
  fun key iv i => (key.getD (i % 32) 0 + iv.getD (i % 16) 0 + i) % 256

/-- The bytes `WriteMessage` emits for `msg` on a fresh open stream. -/
def frameBytes (msg : Message) : List Byte :=
  (WriteMessage { input := [], output := [], closed := false, broken := false } msg).2.output

/-- An open stream about to deliver `input`. -/
def streamOf (input : List Byte) : Conn :=
  { input := input, output := [], closed := false, broken := false }

/-- An IPv4 UDP header of 20 bytes from 10.0.0.1 to 10.0.0.2, then two bytes. -/
def examplePacket : List Byte :=
  [69, 0, 0, 22, 0, 0, 0, 0, 64, 17, 0, 0, 10, 0, 0, 1, 10, 0, 0, 2, 7, 9]

/-- The text form of a 4-byte address (dotted decimal), to evaluate examples. -/
def dottedDecimal (ip : List Byte) : List Byte :=
  List.intercalate [46] (ip.map (fun b => (Nat.toDigits 10 b).map Char.toNat))

def exampleConfig : Config := { MTU := 1400, SharedKey := List.range 32, Timeout := 60 }

/-- The text "10.0.0.2". -/
def exampleIP : List Byte := [49, 48, 46, 48, 46, 48, 46, 50]

def exampleClientA : Client :=
  { ID := "192.0.2.1:5000", Conn := 0, IP := exampleIP, Cipher := { key := List.range 32 },
    LastSeen := 0 }

def exampleClientB : Client :=
  { ID := "192.0.2.2:5000", Conn := 1, IP := [49, 48, 46, 48, 46, 48, 46, 51],
    Cipher := { key := List.range 32 }, LastSeen := 5 }

/-- A server with two sessions, each on its own open stream. -/
def exampleServer : Server :=
  { config := exampleConfig,
    clients := [(exampleClientA.ID, exampleClientA), (exampleClientB.ID, exampleClientB)],
    conns := fun k => if k < 2 then streamOf [] else noConn,
    tun := [],
    accepted := 2 }

def exampleParsed : IPPacket :=
  { Raw := examplePacket, Version := 4, Protocol := 17,
    SrcIp := [10, 0, 0, 1], DstIp := [10, 0, 0, 2], Payload := [7, 9] }

/-- The states the server can be in: `Reach ks ipString cfg s active` says that
the server started with `cfg` can have state `s` while the handlers in their
frame loop hold the session records `active`.  A step is a connection
accepted and taken through the handshake, one pass of the frame loop of a
handler (with what follows the loop when it ends), one scan of the cleaner,
one pass of the TUN reader, or nothing but another iteration order of the
map. -/
inductive Reach (ks : Keystream) (ipString : List Byte → List Byte) (cfg : Config) :
    Server → List Client → Prop where
  | start : Reach ks ipString cfg (NewServer cfg) []
  | connect (s : Server) (active : List Client) (input : List Byte) (broken : Bool)
      (clientAddr : String) (now : Int) :
      Reach ks ipString cfg s active →
      Reach ks ipString cfg
        (handshake (accept s input broken).1 (accept s input broken).2 clientAddr now).1
        (match (handshake (accept s input broken).1 (accept s input broken).2 clientAddr now).2 with
          | some client => client :: active
          | none => active)
  | frame (s : Server) (active : List Client) (client : Client) (now : Int) :
      Reach ks ipString cfg s active → client ∈ active →
      Reach ks ipString cfg
        (match frameBody ks s client now with
          | (s2, .next) => s2
          | (s2, .break_) =>
            ({ s2 with clients := mapDelete s2.clients client.ID }).closeConn client.Conn
          | (s2, .return_) => s2.closeConn client.Conn)
        (match (frameBody ks s client now).2 with
          | .next => active
          | _ => active.erase client)
  | scan (s : Server) (active : List Client) (now : Int) :
      Reach ks ipString cfg s active → Reach ks ipString cfg (cleanerScan s now) active
  | tunRead (s : Server) (active : List Client) (read : Except Error (List Byte))
      (rnd : List Byte) :
      Reach ks ipString cfg s active →
      Reach ks ipString cfg (tunReaderPass ks ipString s read rnd) active
  | reorder (s : Server) (active : List Client) (l : List (String × Client)) :
      Reach ks ipString cfg s active → l.Perm s.clients →
      Reach ks ipString cfg { s with clients := l } active

/-- What holds of the table in every state the server can be in. -/
def TableInv (s : Server) : Prop :=
  TableWF s.clients ∧ ConnsDistinct s.clients ∧
  (∀ e ∈ s.clients, e.2.Conn < s.accepted) ∧
  (∀ e ∈ s.clients, e.2.Cipher = { key := s.config.SharedKey })

/-- The bytes of a HANDSHAKE frame with version 1 claiming "10.0.0.2" and
carrying `key`. -/
def exampleHandshake (key : List Byte) : List Byte :=
  frameBytes (CreateHandshake 1 exampleIP key)

/-- A key that is not the one of `exampleConfig`. -/
def wrongKey : List Byte := List.replicate 32 255

/-- The server started with `exampleConfig` after accepting one stream that
delivers `input`. -/
def freshServer (input : List Byte) (broken : Bool) : Server :=
  (accept (NewServer exampleConfig) input broken).1

/-- Two peers shake hands in turn, both claiming "10.0.0.2". -/
def afterFirstHandshake : Server :=
  (handshake (accept (NewServer exampleConfig) (exampleHandshake (List.range 32)) false).1
    (accept (NewServer exampleConfig) (exampleHandshake (List.range 32)) false).2
    "192.0.2.1:5000" 0).1

def afterSecondHandshake : Server :=
  (handshake (accept afterFirstHandshake (exampleHandshake (List.range 32)) false).1
    (accept afterFirstHandshake (exampleHandshake (List.range 32)) false).2
    "192.0.2.2:5000" 5).1

/-- The payload of a well-formed handshake for "10.0.0.2" with the key of
`exampleConfig`, framed with the type DATA (10) instead of HANDSHAKE. -/
def wrongTypeFrame : List Byte :=
  frameBytes (NewMessage TypeData (CreateHandshake 1 exampleIP (List.range 32)).Data)

/-- A HANDSHAKE frame whose payload is one byte, which does not parse. -/
def unparsableFrame : List Byte := frameBytes (NewMessage TypeHandshake [1])

/-- A HANDSHAKE frame with version 2, "10.0.0.2" and the key of `exampleConfig`. -/
def versionTwoFrame : List Byte := frameBytes (CreateHandshake 2 exampleIP (List.range 32))

/-! ## client/client.go -/

namespace client

/-- The `Client` of package `client`, with what it points to: `conn` is the
stream to the server, `tun` the packets written to the TUN device so far. -/
structure Client where
  conn : Conn
  tun : List (List Byte)
  cipher : Cipher
  bytesIn : Nat
  bytesOut : Nat
deriving DecidableEq, Repr

/-- One pass of the loop of `serverReader` (lines 125-154).  The decrypted
packet goes to `client.conn.Write` (line 142), whose error is only logged;
`bytesIn` is a `uint64`. -/
def serverReaderPass (ks : Keystream) (client : Client) : Client × Ctl :=
  match ReadMessage client.conn with
  | (.error _, c1) => ({ client with conn := c1 }, .return_)
  | (.ok message, c1) =>
    let client := { client with conn := c1 }
    if message.Header.Type_ = TypeData then
      match client.cipher.Decrypt ks message.Data with
      | .error _ => (client, .next)
      | .ok plaintext =>
        match client.conn.Write plaintext with
        | (_, c2) =>
          ({ client with
              conn := c2
              bytesIn := (client.bytesIn + plaintext.length) % 2 ^ 64 },
           .next)
    else if message.Header.Type_ = TypeKeepAlive then (client, .next)
    else if message.Header.Type_ = TypeDisconnect then (client, .return_)
    else (client, .next)

end client

/-- The record `Encrypt` makes of `examplePacket` under the key of
`exampleConfig` with the IV 0, 1, .., 15. -/
def exampleRecord : List Byte :=
  List.range 16 ++ XORKeyStream exampleKeystream (List.range 32) (List.range 16) examplePacket

/-- A client whose stream delivers one DATA frame carrying `exampleRecord`. -/
def exampleEndpoint : client.Client :=
  { conn := streamOf (frameBytes (NewMessage TypeData exampleRecord)),
    tun := [], cipher := { key := List.range 32 }, bytesIn := 0, bytesOut := 0 }

/-- The peer of the first handshake sends DISCONNECT after it. -/
def beforeDisconnect : Server :=
  (handshake
    (accept (NewServer exampleConfig) (exampleHandshake (List.range 32) ++ [4, 0, 0, 0, 0]) false).1
    (accept (NewServer exampleConfig) (exampleHandshake (List.range 32) ++ [4, 0, 0, 0, 0]) false).2
    "192.0.2.1:5000" 0).1

/-- The state once the handler has read that DISCONNECT and returned. -/
def afterDisconnect : Server :=
  match frameBody exampleKeystream beforeDisconnect exampleClientA 0 with
  | (s2, .next) => s2
  | (s2, .break_) =>
    ({ s2 with clients := mapDelete s2.clients exampleClientA.ID }).closeConn exampleClientA.Conn
  | (s2, .return_) => s2.closeConn exampleClientA.Conn

/-! # Theorems -/

/-! ## Framing -/

theorem or_shiftLeft_of_lt (a b i : Nat) (h : a < 2 ^ i) : a ||| b <<< i = a + b * 2 ^ i := by
  rw [Nat.or_comm, Nat.shiftLeft_eq, Nat.mul_comm b, ← Nat.mul_add_lt_is_or h]
  omega

theorem uint32_putUint32 (v : Nat) (h : v < 2 ^ 32) : uint32 (putUint32 v) = v := by
  simp only [uint32, putUint32, List.getD_cons_zero, List.getD_cons_succ, Nat.shiftRight_eq_div_pow]
  rw [or_shiftLeft_of_lt _ _ 8 (by omega), or_shiftLeft_of_lt _ _ 16 (by omega),
    or_shiftLeft_of_lt _ _ 24 (by omega)]
  omega

theorem putUint32_length (v : Nat) : (putUint32 v).length = 4 := rfl

/-- On a stream that accepts writes, `WriteMessage` succeeds and appends
`frameBytes msg` to the output, touching nothing else. -/
theorem writeMessage_open (c : Conn) (msg : Message) (hc : c.closed = false)
    (hb : c.broken = false) :
    WriteMessage c msg = (.ok (), { c with output := c.output ++ frameBytes msg }) := by
  simp only [WriteMessage, Conn.Write, frameBytes, hc, hb]
  by_cases h : msg.Header.Length > 0 <;> simp [h, List.append_assoc]

theorem frameBytes_eq (msg : Message) :
    frameBytes msg = msg.Header.Type_ :: (putUint32 msg.Header.Length ++
      (if msg.Header.Length > 0 then msg.Data else [])) := by
  simp only [WriteMessage, Conn.Write, frameBytes]
  by_cases h : msg.Header.Length > 0 <;> simp [h]

theorem readFull_error_ne_tooLarge (c c2 : Conn) (n : Nat) (e : Error)
    (h : readFull c n = (.error e, c2)) : e ≠ tooLarge := by
  unfold readFull at h
  split at h
  · simp at h
  · split at h
    · simp only [Prod.mk.injEq, Except.error.injEq] at h
      rw [← h.1]; simp [tooLarge]
    · split at h
      · simp at h
      · simp only [Prod.mk.injEq, Except.error.injEq] at h
        rw [← h.1]; split <;> simp [tooLarge]

/-- The five header bytes of an open stream are read as the type byte and the
length bytes, which leaves the rest of the stream. -/
theorem readFull_header (r : Conn) (t : Byte) (l rest : List Byte)
    (hr : r.closed = false) (hl : l.length = 4) (hin : r.input = t :: (l ++ rest)) :
    readFull r 1 = (.ok [t], { r with input := l ++ rest }) ∧
    readFull { r with input := l ++ rest } 4 = (.ok l, { r with input := rest }) := by
  have h4 : 4 ≤ l.length + rest.length := by omega
  constructor
  · simp [readFull, hr, hin]
  · simp [readFull, hr, hl, h4, List.take_append_of_le_length, List.drop_append_of_le_length]

/-- `ReadMessage` on an open stream that starts with a type byte and four
length bytes declaring at most 1024*1024 and followed by that many bytes. -/
theorem readMessage_frame (r : Conn) (t : Byte) (l d rest : List Byte)
    (hr : r.closed = false) (hl : l.length = 4) (hcap : uint32 l ≤ 1024 * 1024)
    (hd : d.length = uint32 l) (hin : r.input = t :: (l ++ (d ++ rest))) :
    ReadMessage r =
      (.ok { Header := { Type_ := t, Length := uint32 l }, Data := d },
       { r with input := rest }) := by
  obtain ⟨h1, h2⟩ := readFull_header r t l (d ++ rest) hr hl hin
  simp only [ReadMessage, h1, h2]
  generalize uint32 l = n at hcap hd
  subst hd
  have hnot : ¬ (d.length > 1024 * 1024) := by omega
  by_cases h0 : d.length = 0
  · have hd0 : d = [] := List.length_eq_zero.mp h0
    simp [hd0]
  · have hpos : d.length > 0 := Nat.pos_of_ne_zero h0
    simp [readFull, hr, hnot, hpos, h0]

/-- C1 (framing round trip): for every type byte `t`, payload `d` of at most
1,048,576 bytes and further bytes `rest`, `ReadMessage` on an open stream
holding the bytes `WriteMessage` emits for `NewMessage t d`, then `rest`,
succeeds with header type `t`, header length `|d|` and data `d`, and leaves
exactly `rest` unread, having taken `5 + |d|` bytes. -/
theorem C1_framing_round_trip (t : Byte) (d rest : List Byte) (r : Conn)
    (hd : d.length ≤ 1048576) (hr : r.closed = false)
    (hin : r.input = frameBytes (NewMessage t d) ++ rest) :
    ReadMessage r =
      (.ok { Header := { Type_ := t, Length := d.length }, Data := d },
       { r with input := rest }) ∧
    r.input.length = (ReadMessage r).2.input.length + (5 + d.length) := by
  have hlen : d.length % 2 ^ 32 = d.length := Nat.mod_eq_of_lt (by omega)
  have hu : uint32 (putUint32 d.length) = d.length := uint32_putUint32 _ (by omega)
  have hdata : (if (NewMessage t d).Header.Length > 0 then (NewMessage t d).Data else []) = d := by
    simp only [NewMessage, hlen]
    by_cases h : d.length > 0
    · simp [h]
    · have : d = [] := List.length_eq_zero.mp (by omega)
      simp [this]
  have hbytes : r.input = t :: (putUint32 d.length ++ (d ++ rest)) := by
    rw [hin, frameBytes_eq, hdata]
    simp only [NewMessage, hlen, List.cons_append, List.append_assoc]
  have key := readMessage_frame r t (putUint32 d.length) d rest hr rfl (by omega) (by omega) hbytes
  rw [hu] at key
  refine ⟨key, ?_⟩
  rw [key, hbytes]
  simp [putUint32]
  omega

theorem C1_framing_round_trip_witness :
    ReadMessage { input := frameBytes (NewMessage 10 [7, 8, 9]) ++ [1, 2], output := [],
                  closed := false, broken := false } =
      (.ok { Header := { Type_ := 10, Length := 3 }, Data := [7, 8, 9] },
       { input := [1, 2], output := [], closed := false, broken := false }) ∧
    ([10, 0, 0, 0, 3, 7, 8, 9, 1, 2] : List Byte).length = 2 + (5 + 3) := by
  have h := C1_framing_round_trip 10 [7, 8, 9] [1, 2]
    { input := frameBytes (NewMessage 10 [7, 8, 9]) ++ [1, 2], output := [],
      closed := false, broken := false } (by decide) rfl rfl
  exact ⟨h.1, by decide⟩

/-- C3 (oversize frames): on an open stream whose first five bytes are a type
byte and four length bytes `l`, if `l` declares more than 1,048,576 then
`ReadMessage` fails with the oversize error and leaves every byte after the
header unread, whatever follows; if `l` declares at most 1,048,576 (so also
exactly 1,048,576) the result is not the oversize error. -/
theorem C3_oversize_frame (r : Conn) (t : Byte) (l rest : List Byte)
    (hr : r.closed = false) (hl : l.length = 4) (hin : r.input = t :: (l ++ rest)) :
    (uint32 l > 1048576 →
      ReadMessage r = (.error tooLarge, { r with input := rest })) ∧
    (uint32 l ≤ 1048576 → (ReadMessage r).1 ≠ .error tooLarge) := by
  obtain ⟨h1, h2⟩ := readFull_header r t l rest hr hl hin
  simp only [ReadMessage, h1, h2]
  constructor
  · intro hbig
    have hb : uint32 l > 1024 * 1024 := by omega
    simp [hb]
  · intro hsmall
    have hnot : ¬ (uint32 l > 1024 * 1024) := by omega
    simp only [hnot, if_false]
    split
    · rcases hrd : readFull { r with input := rest } (uint32 l) with ⟨res, c3⟩
      cases res with
      | error e =>
        simp only [Except.error.injEq, ne_eq]
        exact readFull_error_ne_tooLarge _ _ _ _ hrd
      | ok v => simp
    · simp

/-! ## Cipher -/

theorem xorKeyStream_length (ks : Keystream) (key iv src : List Byte) :
    (XORKeyStream ks key iv src).length = src.length := by
  simp [XORKeyStream]

/-- Applying the keystream of one key and IV twice gives the input back. -/
theorem xorKeyStream_involutive (ks : Keystream) (key iv src : List Byte) :
    XORKeyStream ks key iv (XORKeyStream ks key iv src) = src := by
  apply List.ext_getElem
  · simp [XORKeyStream]
  · intro i h1 h2
    simp [XORKeyStream, Nat.xor_cancel_right]

theorem encrypt_eq (ks : Keystream) (c : Cipher) (rnd p : List Byte) (hr : 16 ≤ rnd.length) :
    c.Encrypt ks rnd p = .ok (rnd.take 16 ++ XORKeyStream ks c.key (rnd.take 16) p) := by
  simp [Cipher.Encrypt, readRandom, BlockSize, hr]

theorem decrypt_record (ks : Keystream) (c : Cipher) (iv p : List Byte) (hiv : iv.length = 16) :
    c.Decrypt ks (iv ++ XORKeyStream ks c.key iv p) = .ok p := by
  have ht : List.take 16 (iv ++ XORKeyStream ks c.key iv p) = iv := by
    rw [List.take_append_of_le_length (by omega), List.take_of_length_le (by omega)]
  have hd : List.drop 16 (iv ++ XORKeyStream ks c.key iv p) = XORKeyStream ks c.key iv p := by
    rw [List.drop_append_of_le_length (by omega), List.drop_of_length_le (by omega)]; simp
  have hlen : ¬ ((iv ++ XORKeyStream ks c.key iv p).length < 16) := by
    rw [List.length_append]; omega
  simp only [Cipher.Decrypt, BlockSize, hlen, if_false, ht, hd, xorKeyStream_involutive]

/-- C2 (cipher round trip): for every 32-byte key (for which `NewCipher`
succeeds), every plaintext `p` of any length and every random source that
yields 16 bytes of IV, `Encrypt` succeeds with the record IV followed by the
keystream XOR `p`, and `Decrypt` under the same key returns exactly `p`; this
holds for every keystream function of key and IV. -/
theorem C2_cipher_round_trip (ks : Keystream) (key rnd p : List Byte)
    (hk : key.length = 32) (hr : 16 ≤ rnd.length) :
    ∃ c record, NewCipher key = .ok c ∧
      c.Encrypt ks rnd p = .ok record ∧
      record = rnd.take 16 ++ XORKeyStream ks key (rnd.take 16) p ∧
      c.Decrypt ks record = .ok p := by
  refine ⟨{ key := key }, rnd.take 16 ++ XORKeyStream ks key (rnd.take 16) p, ?_, ?_, rfl, ?_⟩
  · simp [NewCipher, hk]
  · exact encrypt_eq ks { key := key } rnd p hr
  · exact decrypt_record ks { key := key } (rnd.take 16) p (by simp [hr])

/-! ## IP packet inspector -/

theorem index_eq_getD (data : List Byte) (i : Nat) (h : i < data.length) :
    index data i = .ok (data.getD i 0) := by
  simp [index, h, List.getD_eq_getElem]

theorem index_zero_of_head (data : List Byte) (b0 : Byte) (h : data.head? = some b0) :
    index data 0 = .ok b0 := by
  cases data with
  | nil => simp at h
  | cons a t => simp at h; simp [index, h]

/-- C9 (IPv4 parse): for every input of at least 20 bytes whose first byte
`b0` has high nibble 4 and low nibble `h`, with length at least `4h`,
`ParseIPPacket` succeeds and returns version 4, protocol = byte 9, src =
bytes 12..16, dst = bytes 16..20, payload = the bytes from offset `4h` on,
and `Raw` equal to the input. -/
theorem C9_ipv4_parse (data : List Byte) (b0 h : Nat)
    (hlen : 20 ≤ data.length) (hb0 : data.head? = some b0)
    (hhi : b0 >>> 4 = 4) (hlo : b0 &&& 0x0F = h) (hihl : 4 * h ≤ data.length) :
    ParseIPPacket data = .ok
      { Raw := data, Version := 4, Protocol := data.getD 9 0,
        SrcIp := (data.take 16).drop 12, DstIp := (data.take 20).drop 16,
        Payload := data.drop (4 * h) } := by
  subst hlo
  have hmod : b0 &&& 15 = b0 % 16 := Nat.and_pow_two_sub_one_eq_mod b0 4
  have hh : b0 &&& 15 < 16 := by rw [hmod]; exact Nat.mod_lt _ (by decide)
  have hihl8 : (b0 &&& 15) * 4 % 256 = 4 * (b0 &&& 15) := by omega
  have h20 : ¬ data.length < 20 := by omega
  have hnot : ¬ data.length < 4 * (b0 &&& 15) := by omega
  simp only [ParseIPPacket, ParseIPv4Packet, index_zero_of_head data b0 hb0,
    index_eq_getD data 9 (by omega), slice]
  simp only [bind, Except.bind, pure, Except.pure, hhi, hihl8, h20, hnot, if_true, if_false,
    show 12 ≤ 16 ∧ 16 ≤ data.length from ⟨by omega, by omega⟩,
    show 16 ≤ 20 ∧ 20 ≤ data.length from ⟨by omega, hlen⟩]
  by_cases hgt : data.length > 4 * (b0 &&& 15)
  · simp [hgt, sliceFrom, hihl]
  · have heq : data.length ≤ 4 * (b0 &&& 15) := by omega
    simp [hgt, List.drop_of_length_le heq]

/-- C10 (IP parse rejection): `ParseIPPacket` returns an error, hence no
packet, (1) for every input shorter than 20 bytes, (2) for every input
whose version nibble (byte 0 shifted right by 4) is neither 4 nor 6, and (3)
for every IPv4 input whose length is less than IHL*4; the error is "packet
too short" below 20 bytes, else "invalid packet" in case (2) and "invalid
IPv4 header length" in case (3). -/
theorem C10_ip_parse_rejection (data : List Byte) :
    (data.length < 20 → ParseIPPacket data = .error (.text "packet too short")) ∧
    (∀ b0 : Nat, data.head? = some b0 → b0 >>> 4 ≠ 4 → b0 >>> 4 ≠ 6 →
      ParseIPPacket data = .error
        (.text (if data.length < 20 then "packet too short" else "invalid packet"))) ∧
    (∀ b0 : Nat, data.head? = some b0 → b0 >>> 4 = 4 → data.length < (b0 &&& 0x0F) * 4 →
      ParseIPPacket data = .error
        (.text (if data.length < 20 then "packet too short" else "invalid IPv4 header length"))) := by
  refine ⟨?_, ?_, ?_⟩
  · intro h
    simp [ParseIPPacket, h, bind, Except.bind, throw, throwThe, MonadExceptOf.throw]
  · intro b0 hb0 h4 h6
    by_cases h : data.length < 20
    · simp [ParseIPPacket, h, bind, Except.bind, throw, throwThe, MonadExceptOf.throw]
    · simp [ParseIPPacket, h, index_zero_of_head data b0 hb0, h4, h6, bind, Except.bind, throw,
        throwThe, MonadExceptOf.throw, pure, Except.pure]
  · intro b0 hb0 h4 hshort
    have hmod : b0 &&& 15 = b0 % 16 := Nat.and_pow_two_sub_one_eq_mod b0 4
    have hlt : b0 &&& 15 < 16 := by rw [hmod]; exact Nat.mod_lt _ (by decide)
    have hihl8 : (b0 &&& 15) * 4 % 256 = (b0 &&& 15) * 4 := by omega
    by_cases h : data.length < 20
    · simp [ParseIPPacket, h, bind, Except.bind, throw, throwThe, MonadExceptOf.throw]
    · simp [ParseIPPacket, ParseIPv4Packet, h, index_zero_of_head data b0 hb0, h4, hihl8, hshort,
        bind, Except.bind, throw, throwThe, MonadExceptOf.throw, pure, Except.pure]

theorem C2_cipher_round_trip_witness :
    ((List.range 32).length = 32 ∧ 16 ≤ (List.range 16).length) ∧
    ∃ c record, NewCipher (List.range 32) = .ok c ∧
      c.Encrypt exampleKeystream (List.range 16) [69, 0, 1] = .ok record ∧
      record = (List.range 16).take 16 ++
        XORKeyStream exampleKeystream (List.range 32) ((List.range 16).take 16) [69, 0, 1] ∧
      c.Decrypt exampleKeystream record = .ok [69, 0, 1] :=
  ⟨⟨by decide, by decide⟩,
   C2_cipher_round_trip exampleKeystream (List.range 32) (List.range 16) [69, 0, 1]
     (by decide) (by decide)⟩

theorem C3_oversize_frame_witness :
    uint32 [0, 16, 0, 1] > 1048576 ∧
    ReadMessage (streamOf [10, 0, 16, 0, 1, 99, 98]) = (.error tooLarge, streamOf [99, 98]) ∧
    uint32 [0, 16, 0, 0] ≤ 1048576 ∧
    (ReadMessage (streamOf [10, 0, 16, 0, 0, 99, 98])).1 ≠ .error tooLarge :=
  ⟨by decide,
   (C3_oversize_frame (streamOf [10, 0, 16, 0, 1, 99, 98]) 10 [0, 16, 0, 1] [99, 98]
      rfl rfl rfl).1 (by decide),
   by decide,
   (C3_oversize_frame (streamOf [10, 0, 16, 0, 0, 99, 98]) 10 [0, 16, 0, 0] [99, 98]
      rfl rfl rfl).2 (by decide)⟩

theorem C9_ipv4_parse_witness :
    ParseIPPacket examplePacket = .ok
      { Raw := examplePacket, Version := 4, Protocol := 17,
        SrcIp := [10, 0, 0, 1], DstIp := [10, 0, 0, 2], Payload := [7, 9] } :=
  C9_ipv4_parse examplePacket 69 5 (by decide) rfl (by decide) (by decide) (by decide)

theorem C10_ip_parse_rejection_witness :
    ParseIPPacket [69, 0, 0] = .error (.text "packet too short") ∧
    ParseIPPacket (80 :: List.replicate 19 0) = .error (.text "invalid packet") ∧
    ParseIPPacket (79 :: List.replicate 19 0) = .error (.text "invalid IPv4 header length") :=
  ⟨(C10_ip_parse_rejection [69, 0, 0]).1 (by decide),
   (C10_ip_parse_rejection (80 :: List.replicate 19 0)).2.1 80 rfl (by decide) (by decide),
   (C10_ip_parse_rejection (79 :: List.replicate 19 0)).2.2 79 rfl (by decide) (by decide)⟩

/-! ## Idle reaper -/

theorem expired_iff (now timeout : Int) (c : Client)
    (hT : minDuration ≤ timeout ∧ timeout < maxDuration) :
    expired now timeout c = true ↔ now - c.LastSeen > timeout := by
  simp only [expired, timeSub, decide_eq_true_eq, maxDuration, minDuration] at *
  split
  · omega
  · split <;> omega

theorem close_close (c : Conn) : c.Close.Close = c.Close := rfl

/-- The state after the loop of the cleaner has visited the entries `l`. -/
theorem cleaner_foldl (now timeout : Int) (l : List (String × Client)) (s : Server) :
    (l.foldl (cleanerVisit now timeout) s).clients =
      s.clients.filter (fun x => !(l.any (fun e => expired now timeout e.2 && decide (e.2.ID = x.1)))) ∧
    (∀ k, (l.foldl (cleanerVisit now timeout) s).conns k =
      if l.any (fun e => expired now timeout e.2 && decide (e.2.Conn = k)) = true
      then (s.conns k).Close else s.conns k) ∧
    (l.foldl (cleanerVisit now timeout) s).tun = s.tun ∧
    (l.foldl (cleanerVisit now timeout) s).config = s.config ∧
    (l.foldl (cleanerVisit now timeout) s).accepted = s.accepted := by
  induction l generalizing s with
  | nil => simp
  | cons e l ih =>
    simp only [List.foldl_cons]
    obtain ⟨h1, h2, h3, h4, h5⟩ := ih (cleanerVisit now timeout s e)
    rw [h1, h3, h4, h5]
    by_cases hexp : expired now timeout e.2 = true
    · refine ⟨?_, ?_, ?_, ?_, ?_⟩
      · simp only [cleanerVisit, hexp, if_true, mapDelete, List.filter_filter, List.any_cons,
          Bool.true_and]
        apply List.filter_congr
        intro x _
        by_cases hx : e.2.ID = x.1
        · simp [hx]
        · have hx2 : ¬ x.1 = e.2.ID := fun h => hx h.symm
          simp [hx, hx2]
      · intro k
        rw [h2 k]
        simp only [cleanerVisit, hexp, if_true, Server.closeConn, setConn, List.any_cons,
          Bool.true_and]
        by_cases hk : e.2.Conn = k
        · subst hk
          simp only [decide_True, Bool.true_or, if_true]
          split <;> rfl
        · have hk2 : ¬ k = e.2.Conn := fun h => hk h.symm
          simp only [hk, hk2, decide_False, Bool.false_or, if_false]
      · simp [cleanerVisit, hexp, Server.closeConn]
      · simp [cleanerVisit, hexp, Server.closeConn]
      · simp [cleanerVisit, hexp, Server.closeConn]
    · have hexp2 : expired now timeout e.2 = false := by simpa using hexp
      refine ⟨?_, ?_, ?_, ?_, ?_⟩
      · simp [cleanerVisit, hexp2]
      · intro k
        rw [h2 k]
        simp only [cleanerVisit, hexp2, List.any_cons, Bool.false_and, Bool.false_or]
        rfl
      · simp [cleanerVisit, hexp2]
      · simp [cleanerVisit, hexp2]
      · simp [cleanerVisit, hexp2]

/-- In a well-formed table the only entry whose record has the `ID` of the
key of `x` is `x` itself. -/
theorem tableWF_unique (m : List (String × Client)) (hwf : TableWF m)
    (e x : String × Client) (he : e ∈ m) (hx : x ∈ m) (hid : e.2.ID = x.1) : e = x := by
  have hkey : e.1 = x.1 := by rw [hwf.2 e he]; exact hid
  have hinj := List.inj_on_of_nodup_map hwf.1
  exact hinj he hx hkey

/-- C8 (idle reaper exactness): on a table as the server builds it (one entry
per key, keyed by `ID`, no stream held twice) and a timeout in the range of
`time.Duration` below its maximum, one scan at time `now` leaves in the
table exactly the entries with `now - last_seen <= timeout`, each unchanged,
and closes exactly the streams of the entries with `now - last_seen >
timeout`: those are closed, every other stream, in particular that of each
remaining session, is as before. -/
theorem C8_idle_reaper_exact (s : Server) (now : Int)
    (hwf : TableWF s.clients) (hconn : ConnsDistinct s.clients)
    (hT : minDuration ≤ s.config.Timeout ∧ s.config.Timeout < maxDuration) :
    (cleanerScan s now).clients =
      s.clients.filter (fun e => decide (now - e.2.LastSeen ≤ s.config.Timeout)) ∧
    (∀ e ∈ s.clients, now - e.2.LastSeen > s.config.Timeout →
      e ∉ (cleanerScan s now).clients ∧
      (cleanerScan s now).conns e.2.Conn = (s.conns e.2.Conn).Close) ∧
    (∀ e ∈ s.clients, now - e.2.LastSeen ≤ s.config.Timeout →
      e ∈ (cleanerScan s now).clients ∧
      (cleanerScan s now).conns e.2.Conn = s.conns e.2.Conn) ∧
    (∀ k, (∀ e ∈ s.clients, e.2.Conn = k → now - e.2.LastSeen ≤ s.config.Timeout) →
      (cleanerScan s now).conns k = s.conns k) := by
  obtain ⟨h1, h2, -, -, -⟩ := cleaner_foldl now s.config.Timeout s.clients s
  have hclients : (cleanerScan s now).clients =
      s.clients.filter (fun e => decide (now - e.2.LastSeen ≤ s.config.Timeout)) := by
    unfold cleanerScan
    rw [h1]
    apply List.filter_congr
    intro x hx
    by_cases hxe : now - x.2.LastSeen ≤ s.config.Timeout
    · have hnx : ¬ (expired now s.config.Timeout x.2 = true) := by
        rw [expired_iff _ _ _ hT]; omega
      simp only [hxe, decide_True, Bool.not_eq_true', List.any_eq_false, Bool.and_eq_true,
        decide_eq_true_eq, not_and]
      intro e he hexp hid
      have := tableWF_unique _ hwf e x he hx hid
      subst this
      exact hnx hexp
    · have hxp : expired now s.config.Timeout x.2 = true := by
        rw [expired_iff _ _ _ hT]; omega
      simp only [hxe, decide_False, Bool.not_eq_false', List.any_eq_true, Bool.and_eq_true,
        decide_eq_true_eq]
      exact ⟨x, hx, hxp, (hwf.2 x hx).symm⟩
  have hconns : ∀ k, (cleanerScan s now).conns k =
      if (s.clients.any (fun e => expired now s.config.Timeout e.2 && decide (e.2.Conn = k))) = true
      then (s.conns k).Close else s.conns k := fun k => h2 k
  refine ⟨hclients, ?_, ?_, ?_⟩
  · intro e he hexp
    constructor
    · rw [hclients, List.mem_filter]
      simp only [decide_eq_true_eq, not_and]
      intro _; omega
    · rw [hconns]
      have : (s.clients.any (fun x => expired now s.config.Timeout x.2 &&
          decide (x.2.Conn = e.2.Conn))) = true := by
        simp only [List.any_eq_true, Bool.and_eq_true, decide_eq_true_eq]
        exact ⟨e, he, (expired_iff _ _ _ hT).mpr hexp, rfl⟩
      simp only [this, if_true]
  · intro e he hle
    constructor
    · rw [hclients, List.mem_filter]
      exact ⟨he, by simpa using hle⟩
    · rw [hconns]
      have : ¬ (s.clients.any (fun x => expired now s.config.Timeout x.2 &&
          decide (x.2.Conn = e.2.Conn))) = true := by
        simp only [List.any_eq_true, Bool.and_eq_true, decide_eq_true_eq, not_exists, not_and]
        intro x hx hexp hc
        have := hconn x hx e he hc
        subst this
        rw [expired_iff _ _ _ hT] at hexp
        omega
      simp [this]
  · intro k hk
    rw [hconns]
    have : ¬ (s.clients.any (fun x => expired now s.config.Timeout x.2 &&
        decide (x.2.Conn = k))) = true := by
      simp only [List.any_eq_true, Bool.and_eq_true, decide_eq_true_eq, not_exists, not_and]
      intro x hx hexp hc
      have := hk x hx hc
      rw [expired_iff _ _ _ hT] at hexp
      omega
    simp [this]

/-! ## Streams by handle -/

theorem setConn_same (conns : Nat → Conn) (k : Nat) (c : Conn) : setConn conns k c k = c := by
  simp [setConn]

theorem setConn_other (conns : Nat → Conn) (k j : Nat) (c : Conn) (h : j ≠ k) :
    setConn conns k c j = conns j := by
  simp [setConn, h]

theorem C8_idle_reaper_exact_witness :
    (TableWF exampleServer.clients ∧ ConnsDistinct exampleServer.clients) ∧
    (cleanerScan exampleServer 65).clients = [(exampleClientB.ID, exampleClientB)] ∧
    (cleanerScan exampleServer 65).conns 0 = (streamOf []).Close ∧
    (cleanerScan exampleServer 65).conns 1 = streamOf [] := by
  have hwf : TableWF exampleServer.clients := ⟨by decide, by decide⟩
  have hconn : ConnsDistinct exampleServer.clients := by unfold ConnsDistinct; decide
  have h := C8_idle_reaper_exact exampleServer 65 hwf hconn (by decide)
  refine ⟨⟨hwf, hconn⟩, h.1.trans (by decide), ?_, ?_⟩
  · exact (h.2.1 (exampleClientA.ID, exampleClientA) (by decide) (by decide)).2
  · exact (h.2.2.1 (exampleClientB.ID, exampleClientB) (by decide) (by decide)).2

/-! ## Handshake and the session table -/

theorem newCipher_ok (key : List Byte) (c : Cipher) (h : NewCipher key = .ok c) :
    c = { key := key } ∧ key.length = 32 := by
  unfold NewCipher at h
  split at h
  · simp at h
  · simp only [Except.ok.injEq] at h
    exact ⟨h.symm, by omega⟩

/-- What the handshake can do to the table: nothing, or one assignment under
the address of the peer, of a record with that `ID`, this stream and the
shared key. -/
theorem handshake_shape (s : Server) (conn : Nat) (clientAddr : String) (now : Int) :
    (handshake s conn clientAddr now).1.config = s.config ∧
    (handshake s conn clientAddr now).1.accepted = s.accepted ∧
    (handshake s conn clientAddr now).1.tun = s.tun ∧
    (∀ k, k ≠ conn → (handshake s conn clientAddr now).1.conns k = s.conns k) ∧
    ((handshake s conn clientAddr now).1.clients = s.clients ∧
        (handshake s conn clientAddr now).2 = none ∨
      ∃ ip, (handshake s conn clientAddr now).1.clients =
        mapSet s.clients clientAddr
          { ID := clientAddr, Conn := conn, IP := ip,
            Cipher := { key := s.config.SharedKey }, LastSeen := now } ∧
        ((handshake s conn clientAddr now).2 = none ∨
         (handshake s conn clientAddr now).2 = some
          { ID := clientAddr, Conn := conn, IP := ip,
            Cipher := { key := s.config.SharedKey }, LastSeen := now })) := by
  unfold handshake
  split
  · refine ⟨rfl, rfl, rfl, ?_, Or.inl ⟨rfl, rfl⟩⟩
    intro k hk; simp [Server.closeConn, setConn, hk]
  · dsimp only
    split
    · refine ⟨rfl, rfl, rfl, ?_, Or.inl ⟨rfl, rfl⟩⟩
      intro k hk; simp [Server.closeConn, setConn, hk]
    · split
      · refine ⟨rfl, rfl, rfl, ?_, Or.inl ⟨rfl, rfl⟩⟩
        intro k hk; simp [Server.closeConn, setConn, hk]
      · rename_i cipher hc
        obtain ⟨hck, -⟩ := newCipher_ok _ _ hc
        subst hck
        split
        · refine ⟨rfl, rfl, rfl, ?_, Or.inr ⟨_, rfl, Or.inl rfl⟩⟩
          intro k hk; simp [Server.closeConn, setConn, hk]
        · refine ⟨rfl, rfl, rfl, ?_, Or.inr ⟨_, rfl, Or.inr rfl⟩⟩
          intro k hk; simp [Server.closeConn, setConn, hk]

theorem setConn_setConn (conns : Nat → Conn) (k : Nat) (a b : Conn) :
    setConn (setConn conns k a) k b = setConn conns k b := by
  funext j; simp only [setConn]; split <;> rfl

theorem frameBytes_ack : frameBytes (NewMessage TypeHandshakeAck [79, 75]) = [2, 0, 0, 0, 2, 79, 75] := by
  decide

/-- The handshake on a stream that accepts writes and delivers a frame (of
any type) whose payload parses as a handshake (with any version and any key
bytes), on a server whose own key has 32 bytes: the session is recorded under
the address of the peer and the acknowledgement is written. -/
theorem handshake_accepts (s : Server) (conn : Nat) (clientAddr : String) (now : Int)
    (t : Byte) (l d rest : List Byte) (hs : HandshakeMsg)
    (hc : (s.conns conn).closed = false) (hb : (s.conns conn).broken = false)
    (hl : l.length = 4) (hcap : uint32 l ≤ 1024 * 1024) (hd : d.length = uint32 l)
    (hin : (s.conns conn).input = t :: (l ++ (d ++ rest)))
    (hparse : ParseHandshake d = .ok hs) (hkey : s.config.SharedKey.length = 32) :
    handshake s conn clientAddr now =
      ({ s with
          clients := mapSet s.clients clientAddr
            { ID := clientAddr, Conn := conn, IP := hs.ClientIP,
              Cipher := { key := s.config.SharedKey }, LastSeen := now }
          conns := setConn s.conns conn
            ({ s.conns conn with
                input := rest
                output := (s.conns conn).output ++ [2, 0, 0, 0, 2, 79, 75] }) },
       some { ID := clientAddr, Conn := conn, IP := hs.ClientIP,
              Cipher := { key := s.config.SharedKey }, LastSeen := now }) := by
  have hread := readMessage_frame (s.conns conn) t l d rest hc hl hcap hd hin
  have hnc : NewCipher s.config.SharedKey = .ok { key := s.config.SharedKey } := by
    simp [NewCipher, hkey]
  have hw := writeMessage_open ({ s.conns conn with input := rest })
    (NewMessage TypeHandshakeAck [79, 75]) hc hb
  simp only [handshake, hread, hparse, hnc, setConn_same, hw, setConn_setConn, frameBytes_ack]


/-! ## What holds in every state the server can be in -/

theorem tableInv_filter (s : Server) (p : String × Client → Bool) (conns : Nat → Conn)
    (h : TableInv s) : TableInv { s with clients := s.clients.filter p, conns := conns } := by
  obtain ⟨⟨hnd, hid⟩, hcd, hacc, hkey⟩ := h
  refine ⟨⟨?_, ?_⟩, ?_, ?_, ?_⟩
  · exact hnd.sublist ((List.filter_sublist s.clients).map Prod.fst)
  · intro e he; exact hid e (List.mem_of_mem_filter he)
  · intro e1 h1 e2 h2 hc
    exact hcd e1 (List.mem_of_mem_filter h1) e2 (List.mem_of_mem_filter h2) hc
  · intro e he; exact hacc e (List.mem_of_mem_filter he)
  · intro e he; exact hkey e (List.mem_of_mem_filter he)

theorem tableInv_perm (s : Server) (l : List (String × Client)) (hp : l.Perm s.clients)
    (h : TableInv s) : TableInv { s with clients := l } := by
  obtain ⟨⟨hnd, hid⟩, hcd, hacc, hkey⟩ := h
  refine ⟨⟨?_, ?_⟩, ?_, ?_, ?_⟩
  · exact (hp.map Prod.fst).nodup_iff.mpr hnd
  · intro e he; exact hid e (hp.subset he)
  · intro e1 h1 e2 h2 hc; exact hcd e1 (hp.subset h1) e2 (hp.subset h2) hc
  · intro e he; exact hacc e (hp.subset he)
  · intro e he; exact hkey e (hp.subset he)

theorem tableInv_conns (s : Server) (conns : Nat → Conn) (tun : List (List Byte))
    (h : TableInv s) : TableInv { s with conns := conns, tun := tun } := h

theorem touch_fst (conn : Nat) (now : Int) (e : String × Client) :
    (touch conn now e).1 = e.1 := by
  unfold touch; split <;> rfl

theorem touch_same (conn : Nat) (now : Int) (e : String × Client) :
    (touch conn now e).2.ID = e.2.ID ∧ (touch conn now e).2.Conn = e.2.Conn ∧
    (touch conn now e).2.Cipher = e.2.Cipher ∧ (touch conn now e).2.IP = e.2.IP := by
  unfold touch; split <;> exact ⟨rfl, rfl, rfl, rfl⟩

/-- Writing `LastSeen` in the records of one stream keeps the table as it is
in all that the invariant speaks of. -/
theorem tableInv_touch (s : Server) (conn : Nat) (now : Int) (conns : Nat → Conn)
    (h : TableInv s) :
    TableInv { s with clients := s.clients.map (touch conn now), conns := conns } := by
  obtain ⟨⟨hnd, hid⟩, hcd, hacc, hkey⟩ := h
  have hfst : (s.clients.map (touch conn now)).map Prod.fst = s.clients.map Prod.fst := by
    rw [List.map_map]
    apply List.map_congr_left
    intro e _
    exact touch_fst conn now e
  refine ⟨⟨?_, ?_⟩, ?_, ?_, ?_⟩
  · show ((s.clients.map _).map Prod.fst).Nodup
    rw [hfst]; exact hnd
  · intro e he
    obtain ⟨x, hx, rfl⟩ := List.mem_map.mp he
    rw [touch_fst, (touch_same conn now x).1]; exact hid x hx
  · intro e1 h1 e2 h2 hc
    obtain ⟨x1, hx1, rfl⟩ := List.mem_map.mp h1
    obtain ⟨x2, hx2, rfl⟩ := List.mem_map.mp h2
    rw [(touch_same conn now x1).2.1, (touch_same conn now x2).2.1] at hc
    rw [hcd x1 hx1 x2 hx2 hc]
  · intro e he
    obtain ⟨x, hx, rfl⟩ := List.mem_map.mp he
    rw [(touch_same conn now x).2.1]; exact hacc x hx
  · intro e he
    obtain ⟨x, hx, rfl⟩ := List.mem_map.mp he
    rw [(touch_same conn now x).2.2.1]; exact hkey x hx

theorem tableInv_congr (s t : Server) (hc : t.clients = s.clients) (ha : t.accepted = s.accepted)
    (hcfg : t.config = s.config) (h : TableInv s) : TableInv t := by
  unfold TableInv at *
  rw [hc, ha, hcfg]; exact h

theorem mem_mapSet (m : List (String × Client)) (k : String) (c : Client) (e : String × Client) :
    e ∈ mapSet m k c ↔ e = (k, c) ∨ (e ∈ m ∧ e.1 ≠ k) := by
  simp [mapSet, List.mem_filter]

/-- The assignment `clients[k] = c` of a record with `ID` `k`, the shared key
and a stream no entry holds keeps the invariant. -/
theorem tableInv_mapSet (s : Server) (k : String) (c : Client) (h : TableInv s)
    (hid : c.ID = k) (hfresh : ∀ e ∈ s.clients, e.2.Conn < c.Conn) (hacc : c.Conn < s.accepted)
    (hkey : c.Cipher = { key := s.config.SharedKey }) :
    TableInv { s with clients := mapSet s.clients k c } := by
  obtain ⟨⟨hnd, hid0⟩, hcd, hacc0, hkey0⟩ := h
  refine ⟨⟨?_, ?_⟩, ?_, ?_, ?_⟩
  · show ((mapSet s.clients k c).map Prod.fst).Nodup
    simp only [mapSet, List.map_cons, List.nodup_cons]
    constructor
    · intro hmem
      obtain ⟨x, hx, hxk⟩ := List.mem_map.mp hmem
      have := (List.mem_filter.mp hx).2
      simp at this
      exact this hxk
    · exact hnd.sublist ((List.filter_sublist s.clients).map Prod.fst)
  · intro e he
    rcases (mem_mapSet _ _ _ _).mp he with rfl | ⟨hm, -⟩
    · exact hid.symm
    · exact hid0 e hm
  · intro e1 h1 e2 h2 hc
    rcases (mem_mapSet _ _ _ _).mp h1 with rfl | ⟨hm1, -⟩ <;>
      rcases (mem_mapSet _ _ _ _).mp h2 with rfl | ⟨hm2, -⟩
    · rfl
    · have := hfresh e2 hm2; simp only at hc; omega
    · have := hfresh e1 hm1; simp only at hc; omega
    · exact hcd e1 hm1 e2 hm2 hc
  · intro e he
    rcases (mem_mapSet _ _ _ _).mp he with rfl | ⟨hm, -⟩
    · exact hacc
    · exact hacc0 e hm
  · intro e he
    rcases (mem_mapSet _ _ _ _).mp he with rfl | ⟨hm, -⟩
    · exact hkey
    · exact hkey0 e hm

theorem tableInv_handshake (s : Server) (conn : Nat) (clientAddr : String) (now : Int)
    (h : TableInv s) (hfresh : ∀ e ∈ s.clients, e.2.Conn < conn) (hacc : conn < s.accepted) :
    TableInv (handshake s conn clientAddr now).1 := by
  obtain ⟨hcfg, ha, -, -, hcl⟩ := handshake_shape s conn clientAddr now
  rcases hcl with ⟨hsame, -⟩ | ⟨ip, hset, -⟩
  · exact tableInv_congr s _ hsame ha hcfg h
  · exact tableInv_congr { s with clients := mapSet s.clients clientAddr _ } _ hset ha hcfg
      (tableInv_mapSet s clientAddr _ h rfl hfresh hacc rfl)

/-- One pass of the frame loop changes the table at most by writing
`LastSeen`, and changes neither the configuration nor the count of streams. -/
theorem frameBody_shape (ks : Keystream) (s : Server) (client : Client) (now : Int) :
    (frameBody ks s client now).1.config = s.config ∧
    (frameBody ks s client now).1.accepted = s.accepted ∧
    ((frameBody ks s client now).1.clients = s.clients ∨
     (frameBody ks s client now).1.clients = s.clients.map (touch client.Conn now)) := by
  unfold frameBody
  dsimp only
  split
  · exact ⟨rfl, rfl, Or.inl rfl⟩
  · split
    · split
      · exact ⟨rfl, rfl, Or.inr rfl⟩
      · split <;> exact ⟨rfl, rfl, Or.inr rfl⟩
    · split
      · exact ⟨rfl, rfl, Or.inr rfl⟩
      · split <;> exact ⟨rfl, rfl, Or.inr rfl⟩

theorem tableInv_frameBody (ks : Keystream) (s : Server) (client : Client) (now : Int)
    (h : TableInv s) : TableInv (frameBody ks s client now).1 := by
  obtain ⟨hcfg, ha, hcl⟩ := frameBody_shape ks s client now
  rcases hcl with hsame | htouch
  · exact tableInv_congr s _ hsame ha hcfg h
  · exact tableInv_congr { s with clients := s.clients.map (touch client.Conn now) } _ htouch ha
      hcfg (tableInv_touch s client.Conn now s.conns h)

theorem tableInv_cleanerScan (s : Server) (now : Int) (h : TableInv s) :
    TableInv (cleanerScan s now) := by
  obtain ⟨h1, -, -, h4, h5⟩ := cleaner_foldl now s.config.Timeout s.clients s
  exact tableInv_congr { s with clients := s.clients.filter _, conns := s.conns } _ h1 h5 h4
    (tableInv_filter s _ s.conns h)

theorem tunReaderPass_shape (ks : Keystream) (ipString : List Byte → List Byte) (s : Server)
    (read : Except Error (List Byte)) (rnd : List Byte) :
    (tunReaderPass ks ipString s read rnd).clients = s.clients ∧
    (tunReaderPass ks ipString s read rnd).config = s.config ∧
    (tunReaderPass ks ipString s read rnd).accepted = s.accepted ∧
    (tunReaderPass ks ipString s read rnd).tun = s.tun := by
  unfold tunReaderPass
  split
  · exact ⟨rfl, rfl, rfl, rfl⟩
  · split
    · exact ⟨rfl, rfl, rfl, rfl⟩
    · split
      · exact ⟨rfl, rfl, rfl, rfl⟩
      · dsimp only
        split
        · exact ⟨rfl, rfl, rfl, rfl⟩
        · exact ⟨rfl, rfl, rfl, rfl⟩

/-- In every state the server can be in the table has one entry per key, the
key of an entry is the `ID` of its record, no two entries hold the same
stream, every stream of the table has been accepted, and every session
uses the shared key of the configuration, which is the one the server
started with. -/
theorem reach_tableInv (ks : Keystream) (ipString : List Byte → List Byte) (cfg : Config)
    (s : Server) (active : List Client) (h : Reach ks ipString cfg s active) :
    TableInv s ∧ s.config = cfg := by
  induction h with
  | start =>
    refine ⟨⟨⟨?_, ?_⟩, ?_, ?_, ?_⟩, rfl⟩ <;> simp [NewServer, ConnsDistinct]
  | connect s active input broken clientAddr now _ ih =>
    obtain ⟨hinv, hcfg⟩ := ih
    constructor
    · apply tableInv_handshake
      · obtain ⟨hwf, hcd, hacc, hkey⟩ := hinv
        exact ⟨hwf, hcd, fun e he => Nat.lt_succ_of_lt (hacc e he), hkey⟩
      · exact hinv.2.2.1
      · simp [accept]
    · rw [(handshake_shape _ _ _ _).1]; exact hcfg
  | frame s active client now _ _ ih =>
    obtain ⟨hinv, hcfg⟩ := ih
    have hb := tableInv_frameBody ks s client now hinv
    have hc := (frameBody_shape ks s client now).1
    rcases hfb : frameBody ks s client now with ⟨s2, ctl⟩
    rw [hfb] at hb hc
    cases ctl with
    | next => exact ⟨hb, hc.trans hcfg⟩
    | break_ =>
      refine ⟨?_, hc.trans hcfg⟩
      exact tableInv_filter s2 _ _ hb
    | return_ =>
      refine ⟨?_, hc.trans hcfg⟩
      exact tableInv_conns s2 _ s2.tun hb
  | scan s active now _ ih =>
    obtain ⟨hinv, hcfg⟩ := ih
    refine ⟨tableInv_cleanerScan s now hinv, ?_⟩
    exact ((cleaner_foldl now s.config.Timeout s.clients s).2.2.2.1).trans hcfg
  | tunRead s active read rnd _ ih =>
    obtain ⟨hinv, hcfg⟩ := ih
    obtain ⟨h1, h2, h3, -⟩ := tunReaderPass_shape ks ipString s read rnd
    exact ⟨tableInv_congr s _ h1 h3 h2 hinv, h2.trans hcfg⟩
  | reorder s active l _ hp ih =>
    obtain ⟨hinv, hcfg⟩ := ih
    exact ⟨tableInv_perm s l hp hinv, hcfg⟩

/-- C4 (handshake authentication), the code at a failing input: a HANDSHAKE
frame whose payload parses and whose key bytes differ from the configured
key is acknowledged and its session recorded. -/
theorem C4_mismatched_key_acknowledged :
    wrongKey ≠ exampleConfig.SharedKey ∧
    ParseHandshake ((exampleHandshake wrongKey).drop 5) =
      .ok { Version := 1, ClientIP := exampleIP, SharedKey := wrongKey } ∧
    (handshake (freshServer (exampleHandshake wrongKey) false) 0 "192.0.2.1:5000" 0).1.clients =
      [("192.0.2.1:5000", { exampleClientA with LastSeen := 0 })] ∧
    ((handshake (freshServer (exampleHandshake wrongKey) false) 0 "192.0.2.1:5000" 0).1.conns 0).output
      = [2, 0, 0, 0, 2, 79, 75] ∧
    (handleConnection exampleKeystream (freshServer (exampleHandshake wrongKey) false) 0
      "192.0.2.1:5000" (fun _ => 0)).map (fun s => (s.conns 0).output) =
      some [2, 0, 0, 0, 2, 79, 75] := by
  refine ⟨by decide, rfl, rfl, rfl, rfl⟩

/-- C5 (unique inner IP), refuted: after two peers shake hands in turn, both
claiming "10.0.0.2", the server is in a state it can reach whose table holds
both sessions, the stream of the first not closed; so two sessions of the
table have the same `inner_ip`. -/
theorem C5_duplicate_inner_ip_counterexample :
    Reach exampleKeystream dottedDecimal exampleConfig afterSecondHandshake
      [{ exampleClientA with ID := "192.0.2.2:5000", Conn := 1, LastSeen := 5 }, exampleClientA] ∧
    afterSecondHandshake.clients =
      [("192.0.2.2:5000", { exampleClientA with ID := "192.0.2.2:5000", Conn := 1, LastSeen := 5 }),
       ("192.0.2.1:5000", exampleClientA)] ∧
    (afterSecondHandshake.conns 0).closed = false ∧
    ¬ (∀ e1 ∈ afterSecondHandshake.clients, ∀ e2 ∈ afterSecondHandshake.clients,
        e1.2.IP = e2.2.IP → e1 = e2) := by
  refine ⟨?_, rfl, rfl, ?_⟩
  · exact Reach.connect _ _ _ _ _ _ (Reach.connect _ _ _ _ _ _ Reach.start)
  · decide

/-- C5 as amended: in every state the server can be in, no two entries of the
table have the same key and the key of an entry is the `ID` (the remote
address) of its session; a handshake that succeeds on a newly accepted
stream puts the new session first and removes only an entry under the same
`ID`: every session with another `ID`, also one holding the same
`inner_ip`, stays in the table, its stream as it was. -/
theorem C5_unique_id_handshake_keeps_others (ks : Keystream)
    (ipString : List Byte → List Byte) (cfg : Config) (s : Server) (active : List Client)
    (h : Reach ks ipString cfg s active) :
    (s.clients.map Prod.fst).Nodup ∧ (∀ e ∈ s.clients, e.1 = e.2.ID) ∧
    ∀ (input : List Byte) (broken : Bool) (clientAddr : String) (now : Int) (client : Client),
      (handshake (accept s input broken).1 (accept s input broken).2 clientAddr now).2
        = some client →
      client.ID = clientAddr ∧
      (handshake (accept s input broken).1 (accept s input broken).2 clientAddr now).1.clients
        = (clientAddr, client) :: s.clients.filter (fun e => e.1 ≠ clientAddr) ∧
      ∀ e ∈ s.clients, e.2.ID ≠ clientAddr →
        e ∈ (handshake (accept s input broken).1 (accept s input broken).2 clientAddr now).1.clients ∧
        (handshake (accept s input broken).1 (accept s input broken).2 clientAddr now).1.conns
          e.2.Conn = s.conns e.2.Conn := by
  obtain ⟨⟨⟨hnd, hid⟩, -, hacc, -⟩, -⟩ := reach_tableInv ks ipString cfg s active h
  refine ⟨hnd, hid, ?_⟩
  intro input broken clientAddr now client hres
  obtain ⟨-, -, -, hconns, hcl⟩ :=
    handshake_shape (accept s input broken).1 (accept s input broken).2 clientAddr now
  rcases hcl with ⟨-, hnone⟩ | ⟨ip, hset, hr⟩
  · rw [hnone] at hres; exact absurd hres (by simp)
  · rcases hr with hnone | hsome
    · rw [hnone] at hres; exact absurd hres (by simp)
    · rw [hsome] at hres
      have hc : client = _ := (Option.some.inj hres).symm
      have hset2 : (handshake (accept s input broken).1 (accept s input broken).2 clientAddr
          now).1.clients = (clientAddr, client) :: s.clients.filter (fun e => e.1 ≠ clientAddr) := by
        rw [hset, hc]; rfl
      refine ⟨by rw [hc], hset2, ?_⟩
      intro e he hne
      constructor
      · rw [hset2]
        apply List.mem_cons_of_mem
        rw [List.mem_filter]
        refine ⟨he, ?_⟩
        have := hid e he
        simp only [ne_eq, decide_not, Bool.not_eq_true', decide_eq_false_iff_not]
        rw [this]; exact hne
      · have hlt := hacc e he
        have hne2 : e.2.Conn ≠ (accept s input broken).2 := by
          simp only [accept]; omega
        rw [hconns _ hne2]
        simp only [accept]
        exact setConn_other _ _ _ _ (by omega)

theorem C5_unique_id_handshake_keeps_others_witness :
    (afterFirstHandshake.clients.map Prod.fst).Nodup ∧
    (afterSecondHandshake.clients =
      ("192.0.2.2:5000", { exampleClientA with ID := "192.0.2.2:5000", Conn := 1, LastSeen := 5 })
        :: afterFirstHandshake.clients.filter (fun e => e.1 ≠ "192.0.2.2:5000")) ∧
    (("192.0.2.1:5000", exampleClientA) ∈ afterSecondHandshake.clients ∧
      afterSecondHandshake.conns 0 = afterFirstHandshake.conns 0) := by
  have h := C5_unique_id_handshake_keeps_others exampleKeystream dottedDecimal exampleConfig
    afterFirstHandshake [exampleClientA] (Reach.connect _ _ _ _ _ _ Reach.start)
  have h2 := h.2.2 (exampleHandshake (List.range 32)) false "192.0.2.2:5000" 5
    { exampleClientA with ID := "192.0.2.2:5000", Conn := 1, LastSeen := 5 } rfl
  exact ⟨h.1, h2.2.1, h2.2.2 ("192.0.2.1:5000", exampleClientA) (by decide) (by decide)⟩

/-- C6 (session cleanup on exit), the code at the failing inputs: when the
peer sends DISCONNECT after the handshake, and when the acknowledgement
cannot be written, `handleConnection` returns with the session still in the
table (its stream closed); only when the loop ends by a read error (here
the end of the stream) is the session deleted. -/
theorem C6_session_left_in_table :
    (handleConnection exampleKeystream
        (freshServer (exampleHandshake (List.range 32) ++ [4, 0, 0, 0, 0]) false) 0
        "192.0.2.1:5000" (fun _ => 0)).map (fun s => (s.clients, (s.conns 0).closed)) =
      some ([("192.0.2.1:5000", exampleClientA)], true) ∧
    (handleConnection exampleKeystream
        (freshServer (exampleHandshake (List.range 32)) true) 0
        "192.0.2.1:5000" (fun _ => 0)).map (fun s => (s.clients, (s.conns 0).closed)) =
      some ([("192.0.2.1:5000", exampleClientA)], true) ∧
    (handleConnection exampleKeystream
        (freshServer (exampleHandshake (List.range 32)) false) 0
        "192.0.2.1:5000" (fun _ => 0)).map (fun s => (s.clients, (s.conns 0).closed)) =
      some ([], true) := by
  refine ⟨rfl, rfl, rfl⟩

/-! ## `handleConnection` returns -/

theorem readFull_input (c c2 : Conn) (n : Nat) (d : List Byte)
    (h : readFull c n = (.ok d, c2)) : c2.input.length + n = c.input.length := by
  unfold readFull at h
  split at h
  · rename_i hn
    simp only [Prod.mk.injEq, Except.ok.injEq] at h
    rw [← h.2]; omega
  · split at h
    · simp at h
    · split at h
      · rename_i hle
        simp only [Prod.mk.injEq, Except.ok.injEq] at h
        rw [← h.2]
        simp only [List.length_drop]
        omega
      · simp at h

/-- A frame read takes at least the five bytes of its header. -/
theorem readMessage_input (c c2 : Conn) (m : Message) (h : ReadMessage c = (.ok m, c2)) :
    c2.input.length + 5 ≤ c.input.length := by
  unfold ReadMessage at h
  split at h
  · simp at h
  · rename_i t c1 h1
    split at h
    · simp at h
    · rename_i l c3 h2
      have e1 := readFull_input _ _ _ _ h1
      have e2 := readFull_input _ _ _ _ h2
      dsimp only at h
      split at h
      · simp at h
      · split at h
        · split at h
          · simp at h
          · rename_i d c4 h3
            have e3 := readFull_input _ _ _ _ h3
            simp only [Prod.mk.injEq] at h
            rw [← h.2]; omega
        · simp only [Prod.mk.injEq] at h
          rw [← h.2]; omega

theorem write_input (c : Conn) (b : List Byte) : (c.Write b).2.input = c.input := by
  unfold Conn.Write
  split
  · rfl
  · split <;> rfl

theorem writeMessage_input (c : Conn) (msg : Message) : (WriteMessage c msg).2.input = c.input := by
  unfold WriteMessage
  rcases h1 : c.Write [msg.Header.Type_] with ⟨r1, c1⟩
  have e1 : c1.input = c.input := by have := write_input c [msg.Header.Type_]; rw [h1] at this; exact this
  cases r1 with
  | error e => exact e1
  | ok u =>
    dsimp only
    rcases h2 : c1.Write (putUint32 msg.Header.Length) with ⟨r2, c2⟩
    have e2 : c2.input = c1.input := by
      have := write_input c1 (putUint32 msg.Header.Length); rw [h2] at this; exact this
    cases r2 with
    | error e => exact e2.trans e1
    | ok u2 =>
      dsimp only
      split
      · rcases h3 : c2.Write msg.Data with ⟨r3, c3⟩
        have e3 : c3.input = c2.input := by
          have := write_input c2 msg.Data; rw [h3] at this; exact this
        cases r3 with
        | error e => exact e3.trans (e2.trans e1)
        | ok u3 => exact e3.trans (e2.trans e1)
      · exact e2.trans e1

/-- A pass of the frame loop that goes on has taken a frame from the stream. -/
theorem frameBody_next_input (ks : Keystream) (s s2 : Server) (client : Client) (now : Int)
    (h : frameBody ks s client now = (s2, .next)) :
    (s2.conns client.Conn).input.length < (s.conns client.Conn).input.length := by
  unfold frameBody at h
  dsimp only at h
  split at h
  · simp at h
  · rename_i message c1 hread
    have hlen := readMessage_input _ _ _ hread
    split at h
    · split at h
      · simp only [Prod.mk.injEq, and_true] at h
        rw [← h]; simp only [setConn_same]; omega
      · split at h
        · simp only [Prod.mk.injEq, and_true] at h
          rw [← h]; simp only [setConn_same]; omega
        · simp only [Prod.mk.injEq, and_true] at h
          rw [← h]; simp only [setConn_same]; omega
    · split at h
      · simp only [Prod.mk.injEq, and_true] at h
        rw [← h]
        simp only [setConn_same, writeMessage_input]
        omega
      · split at h
        · simp at h
        · simp only [Prod.mk.injEq, and_true] at h
          rw [← h]; simp only [setConn_same]; omega

theorem frameLoop_returns (ks : Keystream) (times : Nat → Int) (fuel : Nat) :
    ∀ (k : Nat) (s : Server) (client : Client),
      (s.conns client.Conn).input.length < fuel →
      ∃ s2, frameLoop ks times fuel k s client = some s2 := by
  induction fuel with
  | zero => intro k s client h; omega
  | succ n ih =>
    intro k s client h
    unfold frameLoop
    rcases hfb : frameBody ks s client (times k) with ⟨s2, ctl⟩
    cases ctl with
    | next =>
      have := frameBody_next_input ks s s2 client (times k) hfb
      exact ih (k + 1) s2 client (by omega)
    | break_ => exact ⟨_, rfl⟩
    | return_ => exact ⟨_, rfl⟩

/-- The session record the handshake hands to the loop holds the stream of
the handshake. -/
theorem handshake_client_conn (s : Server) (conn : Nat) (clientAddr : String) (now : Int)
    (client : Client) (h : (handshake s conn clientAddr now).2 = some client) :
    client.Conn = conn := by
  obtain ⟨-, -, -, -, hcl⟩ := handshake_shape s conn clientAddr now
  rcases hcl with ⟨-, hnone⟩ | ⟨ip, -, hnone | hsome⟩
  · rw [hnone] at h; simp at h
  · rw [hnone] at h; simp at h
  · rw [hsome] at h
    rw [← Option.some.inj h]

/-- `handleConnection` returns on every stream: the fuel it gives the loop is
enough. -/
theorem handleConnection_returns (ks : Keystream) (s : Server) (conn : Nat)
    (clientAddr : String) (times : Nat → Int) :
    ∃ s2, handleConnection ks s conn clientAddr times = some s2 := by
  unfold handleConnection
  rcases hh : handshake s conn clientAddr (times 0) with ⟨s1, r⟩
  cases r with
  | none => exact ⟨s1, rfl⟩
  | some client =>
    have hc : client.Conn = conn := by
      apply handshake_client_conn s conn clientAddr (times 0)
      rw [hh]
    dsimp only
    apply frameLoop_returns
    rw [hc]; omega

/-! ## Wire format -/

/-- The four bytes of `putUint32 v` are bytes, and read big-endian they are
`v` (for `v` below 2^32). -/
theorem putUint32_bigEndian (v : Nat) (h : v < 2 ^ 32) :
    ∃ b0 b1 b2 b3 : Nat, putUint32 v = [b0, b1, b2, b3] ∧
      b0 < 256 ∧ b1 < 256 ∧ b2 < 256 ∧ b3 < 256 ∧
      v = b0 * 2 ^ 24 + b1 * 2 ^ 16 + b2 * 2 ^ 8 + b3 := by
  refine ⟨(v >>> 24) % 256, (v >>> 16) % 256, (v >>> 8) % 256, v % 256, rfl, ?_, ?_, ?_, ?_, ?_⟩
  · exact Nat.mod_lt _ (by decide)
  · exact Nat.mod_lt _ (by decide)
  · exact Nat.mod_lt _ (by decide)
  · exact Nat.mod_lt _ (by decide)
  · simp only [Nat.shiftRight_eq_div_pow]
    omega

/-- C16 (wire format): for every type byte `t` and payload `d` with
`|d| < 2^32`, the bytes `WriteMessage` emits for `NewMessage t d` (what it
appends to any stream that accepts writes) are exactly `t`, then the four
bytes of the big-endian encoding of `|d|`, then `d`, `5 + |d|` bytes in all;
KEEPALIVE and DISCONNECT with empty payload are `03 00 00 00 00` and
`04 00 00 00 00`. -/
theorem C16_wire_format (t : Byte) (d : List Byte) (c : Conn) (hd : d.length < 2 ^ 32)
    (hc : c.closed = false) (hb : c.broken = false) :
    WriteMessage c (NewMessage t d) =
      (.ok (), { c with output := c.output ++ (t :: (putUint32 d.length ++ d)) }) ∧
    (∃ b0 b1 b2 b3 : Nat, putUint32 d.length = [b0, b1, b2, b3] ∧
      b0 < 256 ∧ b1 < 256 ∧ b2 < 256 ∧ b3 < 256 ∧
      d.length = b0 * 2 ^ 24 + b1 * 2 ^ 16 + b2 * 2 ^ 8 + b3) ∧
    (t :: (putUint32 d.length ++ d)).length = 5 + d.length ∧
    frameBytes (NewMessage TypeKeepAlive []) = [3, 0, 0, 0, 0] ∧
    frameBytes (NewMessage TypeDisconnect []) = [4, 0, 0, 0, 0] := by
  have hlen : d.length % 2 ^ 32 = d.length := Nat.mod_eq_of_lt hd
  have hbytes : frameBytes (NewMessage t d) = t :: (putUint32 d.length ++ d) := by
    rw [frameBytes_eq]
    simp only [NewMessage, hlen]
    by_cases h : d.length > 0
    · simp [h]
    · have : d = [] := List.length_eq_zero.mp (by omega)
      simp [this]
  refine ⟨?_, putUint32_bigEndian d.length hd, ?_, by decide, by decide⟩
  · rw [writeMessage_open c _ hc hb, hbytes]
  · simp [putUint32]; omega

theorem C16_wire_format_witness :
    WriteMessage (streamOf []) (NewMessage 10 [7, 8, 9]) =
      (.ok (), { streamOf [] with output := [] ++ (10 :: (putUint32 3 ++ [7, 8, 9])) }) ∧
    putUint32 3 = [0, 0, 0, 3] :=
  ⟨(C16_wire_format 10 [7, 8, 9] (streamOf []) (by decide) rfl rfl).1, by decide⟩

/-! ## Handshake payload -/

/-- `ParseHandshake` on version, a length byte, that many bytes of IP text and
then the key. -/
theorem parseHandshake_payload (v : Byte) (ip k : List Byte) :
    ParseHandshake (v :: ip.length :: (ip ++ k)) =
      .ok { Version := v, ClientIP := ip, SharedKey := k } := by
  have h2 : ¬ ((v :: ip.length :: (ip ++ k)).length < 2) := by simp
  have hlen : ¬ ((v :: ip.length :: (ip ++ k)).length < 2 + ip.length) := by
    simp only [List.length_cons, List.length_append]; omega
  have hs : 2 ≤ 2 + ip.length ∧ 2 + ip.length ≤ (v :: ip.length :: (ip ++ k)).length := by
    simp only [List.length_cons, List.length_append]; omega
  have hf : 2 + ip.length ≤ (v :: ip.length :: (ip ++ k)).length := hs.2
  have hdrop : List.drop 2 (List.take (2 + ip.length) (v :: ip.length :: (ip ++ k))) = ip := by
    rw [show 2 + ip.length = ip.length + 1 + 1 by omega]
    simp
  have hdrop2 : List.drop (2 + ip.length) (v :: ip.length :: (ip ++ k)) = k := by
    rw [show 2 + ip.length = ip.length + 1 + 1 by omega]
    simp
  simp only [ParseHandshake, index, slice, sliceFrom, bind, Except.bind, pure, Except.pure,
    h2, if_false]
  simp only [List.length_cons, List.length_append, Nat.zero_lt_succ, Nat.succ_lt_succ_iff,
    dite_true, List.get_eq_getElem, List.getElem_cons_zero, List.getElem_cons_succ]
  simp only [List.length_cons, List.length_append] at hlen hs hf
  simp only [hlen, hs, hf, if_false, if_true, and_self, hdrop, hdrop2]

/-- C11 (handshake payload round trip): for every version byte `v`, inner-IP
text `ip` of at most 255 bytes and key bytes `k`, the payload of
`CreateHandshake v ip k` is `v`, the byte `|ip|`, `ip`, then `k`
(`2 + |ip| + |k|` bytes), the message type is HANDSHAKE (1), and
`ParseHandshake` of that payload returns version `v`, client IP `ip` and
shared key `k`. -/
theorem C11_handshake_round_trip (v : Byte) (ip k : List Byte) (hip : ip.length ≤ 255) :
    (CreateHandshake v ip k).Data = v :: ip.length :: (ip ++ k) ∧
    (CreateHandshake v ip k).Data.length = 2 + ip.length + k.length ∧
    (CreateHandshake v ip k).Header.Type_ = 1 ∧
    ParseHandshake (CreateHandshake v ip k).Data =
      .ok { Version := v, ClientIP := ip, SharedKey := k } := by
  have hmod : ip.length % 256 = ip.length := Nat.mod_eq_of_lt (by omega)
  have hdata : (CreateHandshake v ip k).Data = v :: ip.length :: (ip ++ k) := by
    simp only [CreateHandshake, NewMessage, hmod]
  refine ⟨hdata, ?_, rfl, ?_⟩
  · rw [hdata]; simp only [List.length_cons, List.length_append]; omega
  · rw [hdata]; exact parseHandshake_payload v ip k

theorem C11_handshake_round_trip_witness :
    (CreateHandshake 1 exampleIP wrongKey).Data = 1 :: 8 :: (exampleIP ++ wrongKey) ∧
    ParseHandshake (CreateHandshake 1 exampleIP wrongKey).Data =
      .ok { Version := 1, ClientIP := exampleIP, SharedKey := wrongKey } :=
  ⟨(C11_handshake_round_trip 1 exampleIP wrongKey (by decide)).1,
   (C11_handshake_round_trip 1 exampleIP wrongKey (by decide)).2.2.2⟩

/-! ## Short ciphertext -/

/-- C17 (short ciphertext): for every 32-byte key (every cipher `NewCipher`
builds) and every record `c`, `Decrypt` returns an error exactly when `c`
has fewer than 16 bytes (the error "ciphertext too short"); for `|c| >= 16`
it returns a plaintext of exactly `|c| - 16` bytes, so the empty plaintext
for a record of 16 bytes. -/
theorem C17_short_ciphertext (ks : Keystream) (key : List Byte) (cipher : Cipher)
    (c : List Byte) (hk : NewCipher key = .ok cipher) :
    key.length = 32 ∧
    ((∃ e, cipher.Decrypt ks c = .error e) ↔ c.length < 16) ∧
    (c.length < 16 → cipher.Decrypt ks c = .error (.text "ciphertext too short")) ∧
    (16 ≤ c.length → ∃ p, cipher.Decrypt ks c = .ok p ∧ p.length = c.length - 16) ∧
    (c.length = 16 → cipher.Decrypt ks c = .ok []) := by
  have hshort : c.length < 16 → cipher.Decrypt ks c = .error (.text "ciphertext too short") := by
    intro h; simp [Cipher.Decrypt, BlockSize, h]
  have hlong : 16 ≤ c.length → ∃ p, cipher.Decrypt ks c = .ok p ∧ p.length = c.length - 16 := by
    intro h
    have hn : ¬ c.length < 16 := by omega
    refine ⟨XORKeyStream ks cipher.key (c.take 16) (c.drop 16), ?_, ?_⟩
    · simp [Cipher.Decrypt, BlockSize, hn]
    · rw [xorKeyStream_length, List.length_drop]
  refine ⟨(newCipher_ok key cipher hk).2, ⟨?_, ?_⟩, hshort, hlong, ?_⟩
  · rintro ⟨e, he⟩
    by_contra hn
    obtain ⟨p, hp, -⟩ := hlong (by omega)
    rw [hp] at he
    exact absurd he (by simp)
  · intro h; exact ⟨_, hshort h⟩
  · intro h
    obtain ⟨p, hp, hl⟩ := hlong (by omega)
    have : p = [] := List.length_eq_zero.mp (by omega)
    rw [hp, this]

theorem C17_short_ciphertext_witness :
    NewCipher (List.range 32) = .ok { key := List.range 32 } ∧
    Cipher.Decrypt exampleKeystream { key := List.range 32 } (List.range 15) =
      .error (.text "ciphertext too short") ∧
    Cipher.Decrypt exampleKeystream { key := List.range 32 } (List.range 16) = .ok [] :=
  ⟨rfl,
   (C17_short_ciphertext exampleKeystream (List.range 32) { key := List.range 32 }
      (List.range 15) rfl).2.2.1 (by decide),
   (C17_short_ciphertext exampleKeystream (List.range 32) { key := List.range 32 }
      (List.range 16) rfl).2.2.2.2 (by decide)⟩

/-! ## IPv6 and parser totality -/

theorem parseIPPacket_v6 (data : List Byte) (b0 : Nat) (hlen : 20 ≤ data.length)
    (hb0 : data.head? = some b0) (hhi : b0 >>> 4 = 6) :
    ParseIPPacket data =
      ParseIPv6Packet
        { Raw := data, Version := 6, Protocol := 0, SrcIp := [], DstIp := [], Payload := [] }
        data := by
  have h20 : ¬ data.length < 20 := by omega
  simp [ParseIPPacket, index_zero_of_head data b0 hb0, hhi, h20, bind, Except.bind, pure,
    Except.pure]

/-- C18 (IPv6 parse): for every input whose version nibble is 6,
`ParseIPPacket` succeeds exactly when the input has at least 40 bytes (an
input of 20 to 39 bytes is rejected with "packet too short"), and on
success it returns version 6, protocol = byte 6, src = bytes 8..24, dst =
bytes 24..40 and payload = the bytes from offset 40 on. -/
theorem C18_ipv6_parse (data : List Byte) (b0 : Nat)
    (hb0 : data.head? = some b0) (hhi : b0 >>> 4 = 6) :
    ((∃ p, ParseIPPacket data = .ok p) ↔ 40 ≤ data.length) ∧
    (data.length < 40 → ParseIPPacket data = .error (.text "packet too short")) ∧
    (40 ≤ data.length → ParseIPPacket data = .ok
      { Raw := data, Version := 6, Protocol := data.getD 6 0,
        SrcIp := (data.take 24).drop 8, DstIp := (data.take 40).drop 24,
        Payload := data.drop 40 }) := by
  have hshort : data.length < 40 → ParseIPPacket data = .error (.text "packet too short") := by
    intro h
    by_cases h20 : data.length < 20
    · simp [ParseIPPacket, h20, bind, Except.bind, throw, throwThe, MonadExceptOf.throw]
    · rw [parseIPPacket_v6 data b0 (by omega) hb0 hhi]
      simp [ParseIPv6Packet, h, bind, Except.bind, throw, throwThe, MonadExceptOf.throw]
  have hlong : 40 ≤ data.length → ParseIPPacket data = .ok
      { Raw := data, Version := 6, Protocol := data.getD 6 0,
        SrcIp := (data.take 24).drop 8, DstIp := (data.take 40).drop 24,
        Payload := data.drop 40 } := by
    intro h
    have h40 : ¬ data.length < 40 := by omega
    rw [parseIPPacket_v6 data b0 (by omega) hb0 hhi]
    simp only [ParseIPv6Packet, index_eq_getD data 6 (by omega), slice, h40, bind, Except.bind,
      pure, Except.pure, if_false,
      show 8 ≤ 24 ∧ 24 ≤ data.length from ⟨by omega, by omega⟩,
      show 24 ≤ 40 ∧ 40 ≤ data.length from ⟨by omega, h⟩, if_true]
    by_cases hgt : data.length > 40
    · simp [hgt, sliceFrom, h]
    · have hle : data.length ≤ 40 := by omega
      simp [hgt, List.drop_of_length_le hle]
  refine ⟨⟨?_, ?_⟩, hshort, hlong⟩
  · rintro ⟨p, hp⟩
    by_contra hn
    rw [hshort (by omega)] at hp
    exact absurd hp (by simp)
  · intro h; exact ⟨_, hlong h⟩

theorem C18_ipv6_parse_witness :
    ParseIPPacket (96 :: List.replicate 38 0) = .error (.text "packet too short") ∧
    ParseIPPacket (96 :: 0 :: 0 :: 0 :: 0 :: 0 :: 17 :: (List.replicate 33 0 ++ [5])) = .ok
      { Raw := 96 :: 0 :: 0 :: 0 :: 0 :: 0 :: 17 :: (List.replicate 33 0 ++ [5]),
        Version := 6, Protocol := 17,
        SrcIp := List.replicate 16 0, DstIp := List.replicate 16 0, Payload := [5] } :=
  ⟨(C18_ipv6_parse (96 :: List.replicate 38 0) 96 rfl (by decide)).2.1 (by decide),
   (C18_ipv6_parse (96 :: 0 :: 0 :: 0 :: 0 :: 0 :: 17 :: (List.replicate 33 0 ++ [5])) 96 rfl
      (by decide)).2.2 (by decide)⟩

/-- A result that is a value or one of the errors the source makes with
`errors.New`: not the panic of an index or slice out of range. -/
theorem parseIPv4Packet_total (packet : IPPacket) (data : List Byte) :
    (∃ p, ParseIPv4Packet packet data = .ok p) ∨
    (∃ s, ParseIPv4Packet packet data = .error (.text s)) := by
  by_cases h20 : data.length < 20
  · right
    refine ⟨"packet too short", ?_⟩
    simp [ParseIPv4Packet, h20, bind, Except.bind, throw, throwThe, MonadExceptOf.throw]
  · obtain ⟨b0, hb0⟩ : ∃ b0 : Nat, index data 0 = .ok b0 :=
      ⟨_, index_eq_getD data 0 (by omega)⟩
    obtain ⟨b9, hb9⟩ : ∃ b9 : Nat, index data 9 = .ok b9 :=
      ⟨_, index_eq_getD data 9 (by omega)⟩
    by_cases hs : data.length < ((b0 &&& 0x0F) * 4) % 256
    · right
      refine ⟨"invalid IPv4 header length", ?_⟩
      simp only [ParseIPv4Packet, hb0, bind, Except.bind, pure, Except.pure, h20, hs, if_false,
        if_true, throw, throwThe, MonadExceptOf.throw]
    · left
      simp only [ParseIPv4Packet, hb0, hb9, slice, bind, Except.bind, pure, Except.pure, h20, hs,
        if_false, show 12 ≤ 16 ∧ 16 ≤ data.length from ⟨by omega, by omega⟩,
        show 16 ≤ 20 ∧ 20 ≤ data.length from ⟨by omega, by omega⟩, if_true]
      by_cases hgt : data.length > ((b0 &&& 0x0F) * 4) % 256
      · have hle : ((b0 &&& 0x0F) * 4) % 256 ≤ data.length := Nat.le_of_lt hgt
        simp only [hgt, sliceFrom, hle, if_true]
        exact ⟨_, rfl⟩
      · simp only [hgt, if_false]
        exact ⟨_, rfl⟩

theorem parseIPv6Packet_total (packet : IPPacket) (data : List Byte) :
    (∃ p, ParseIPv6Packet packet data = .ok p) ∨
    (∃ s, ParseIPv6Packet packet data = .error (.text s)) := by
  by_cases h40 : data.length < 40
  · right
    refine ⟨"packet too short", ?_⟩
    simp [ParseIPv6Packet, h40, bind, Except.bind, throw, throwThe, MonadExceptOf.throw]
  · left
    obtain ⟨b6, hb6⟩ : ∃ b6 : Nat, index data 6 = .ok b6 :=
      ⟨_, index_eq_getD data 6 (by omega)⟩
    simp only [ParseIPv6Packet, hb6, slice, bind, Except.bind, pure,
      Except.pure, h40, if_false, show 8 ≤ 24 ∧ 24 ≤ data.length from ⟨by omega, by omega⟩,
      show 24 ≤ 40 ∧ 40 ≤ data.length from ⟨by omega, by omega⟩, if_true]
    by_cases hgt : data.length > 40
    · have hle : 40 ≤ data.length := Nat.le_of_lt hgt
      simp only [hgt, sliceFrom, hle, if_true]
      exact ⟨_, rfl⟩
    · simp only [hgt, if_false]
      exact ⟨_, rfl⟩

theorem parseIPPacket_total (data : List Byte) :
    (∃ p, ParseIPPacket data = .ok p) ∨ (∃ s, ParseIPPacket data = .error (.text s)) := by
  by_cases h20 : data.length < 20
  · right
    refine ⟨"packet too short", ?_⟩
    simp [ParseIPPacket, h20, bind, Except.bind, throw, throwThe, MonadExceptOf.throw]
  · obtain ⟨b0, hb0⟩ : ∃ b0 : Nat, index data 0 = .ok b0 :=
      ⟨_, index_eq_getD data 0 (by omega)⟩
    simp only [ParseIPPacket, hb0, bind, Except.bind, pure, Except.pure, h20, if_false]
    by_cases h4 : b0 >>> 4 = 4
    · simp only [h4, if_true]
      exact parseIPv4Packet_total _ data
    · by_cases h6 : b0 >>> 4 = 6
      · simp only [h6, show ¬ (6 = 4) by decide, if_false, if_true]
        exact parseIPv6Packet_total _ data
      · right
        refine ⟨"invalid packet", ?_⟩
        simp only [h4, h6, if_false, throw, throwThe, MonadExceptOf.throw]

theorem parseHandshake_total (data : List Byte) :
    (∃ p, ParseHandshake data = .ok p) ∨ (∃ s, ParseHandshake data = .error (.text s)) := by
  by_cases h2 : data.length < 2
  · right
    refine ⟨"invalid handshake packet", ?_⟩
    simp [ParseHandshake, h2, bind, Except.bind, throw, throwThe, MonadExceptOf.throw]
  · obtain ⟨b0, hb0⟩ : ∃ b0 : Nat, index data 0 = .ok b0 :=
      ⟨_, index_eq_getD data 0 (by omega)⟩
    obtain ⟨b1, hb1⟩ : ∃ b1 : Nat, index data 1 = .ok b1 :=
      ⟨_, index_eq_getD data 1 (by omega)⟩
    by_cases hs : data.length < 2 + b1
    · right
      refine ⟨"invalid handshake packet", ?_⟩
      simp only [ParseHandshake, hb0, hb1, bind, Except.bind, pure, Except.pure, h2, hs, if_false,
        if_true, throw, throwThe, MonadExceptOf.throw]
    · left
      have hle : 2 + b1 ≤ data.length := by omega
      simp only [ParseHandshake, hb0, hb1, slice, sliceFrom, bind, Except.bind, pure, Except.pure,
        h2, hs, hle, if_false, if_true, show 2 ≤ 2 + b1 from by omega, and_self]
      exact ⟨_, rfl⟩

theorem ihl_no_wrap (b : Nat) :
    (b &&& 0x0F) * 4 ≤ 60 ∧ ((b &&& 0x0F) * 4) % 256 = (b &&& 0x0F) * 4 := by
  have hmod : b &&& 15 = b % 16 := Nat.and_pow_two_sub_one_eq_mod b 4
  have hlt : b &&& 15 < 16 := by rw [hmod]; exact Nat.mod_lt _ (by decide)
  omega

/-- C20 (parser totality): for every byte sequence, `ParseIPPacket` and
`ParseHandshake` (and the two parsers `ParseIPPacket` calls, on any input)
return a result or one of their own errors, never the panic of an index or
slice outside the input: every index and slice bound they use is within the
input on the branch that uses it; and IHL*4, computed in 8 bits, is at most
60 and does not wrap. -/
theorem C20_parser_totality (data : List Byte) (packet : IPPacket) (b : Nat) :
    ((∃ p, ParseIPPacket data = .ok p) ∨ (∃ s, ParseIPPacket data = .error (.text s))) ∧
    ((∃ h, ParseHandshake data = .ok h) ∨ (∃ s, ParseHandshake data = .error (.text s))) ∧
    ParseIPPacket data ≠ .error .indexOutOfRange ∧
    ParseHandshake data ≠ .error .indexOutOfRange ∧
    ParseIPv4Packet packet data ≠ .error .indexOutOfRange ∧
    ParseIPv6Packet packet data ≠ .error .indexOutOfRange ∧
    (b &&& 0x0F) * 4 ≤ 60 ∧ ((b &&& 0x0F) * 4) % 256 = (b &&& 0x0F) * 4 := by
  refine ⟨parseIPPacket_total data, parseHandshake_total data, ?_, ?_, ?_, ?_, ihl_no_wrap b⟩
  · rcases parseIPPacket_total data with ⟨p, h⟩ | ⟨s, h⟩ <;> rw [h] <;> simp
  · rcases parseHandshake_total data with ⟨p, h⟩ | ⟨s, h⟩ <;> rw [h] <;> simp
  · rcases parseIPv4Packet_total packet data with ⟨p, h⟩ | ⟨s, h⟩ <;> rw [h] <;> simp
  · rcases parseIPv6Packet_total packet data with ⟨p, h⟩ | ⟨s, h⟩ <;> rw [h] <;> simp

/-! ## Truncated frames -/

theorem readMessage_empty (r : Conn) (hr : r.closed = false) (hin : r.input = []) :
    ReadMessage r = (.error .eof, { r with input := [] }) := by
  simp [ReadMessage, readFull, hr, hin]

/-- The stream ends inside the header, after the type byte. -/
theorem readMessage_short_header (r : Conn) (t : Byte) (rest : List Byte)
    (hr : r.closed = false) (hin : r.input = t :: rest) (hlen : rest.length < 4) :
    ReadMessage r =
      (.error (if rest.isEmpty then .eof else .unexpectedEOF), { r with input := [] }) := by
  have h1 : readFull r 1 = (.ok [t], { r with input := rest }) := by
    simp [readFull, hr, hin]
  have hn : ¬ (4 ≤ rest.length) := by omega
  simp only [ReadMessage, h1]
  simp [readFull, hr, hn]

/-- The stream ends after the header, before the payload is complete. -/
theorem readMessage_short_payload (r : Conn) (t : Byte) (l rest : List Byte)
    (hr : r.closed = false) (hl : l.length = 4) (hcap : uint32 l ≤ 1024 * 1024)
    (hin : r.input = t :: (l ++ rest)) (hlen : rest.length < uint32 l) :
    ReadMessage r =
      (.error (if rest.isEmpty then .eof else .unexpectedEOF), { r with input := [] }) := by
  obtain ⟨h1, h2⟩ := readFull_header r t l rest hr hl hin
  have hnot : ¬ (uint32 l > 1024 * 1024) := by omega
  have hpos : uint32 l > 0 := by omega
  have hne : ¬ (uint32 l = 0) := by omega
  have hn : ¬ (uint32 l ≤ rest.length) := by omega
  simp only [ReadMessage, h1, h2, hnot, hpos, if_false, if_true]
  simp [readFull, hr, hne, hn]

/-- C19 (truncated frames): for every well-formed frame encoding (a type
byte, four length bytes declaring at most 1,048,576, and that many payload
bytes) and every strict prefix of it, the empty one included, `ReadMessage`
on an open stream that ends after that prefix returns no message but an
error of the short read, `io.EOF` or `io.ErrUnexpectedEOF`, and has drained
the stream; it is `io.EOF` exactly when the prefix ends where a read
begins (after 0, 1 or 5 bytes). -/
theorem C19_truncated_frame (r : Conn) (t : Byte) (l d : List Byte) (n : Nat)
    (hr : r.closed = false) (hl : l.length = 4) (hcap : uint32 l ≤ 1048576)
    (hd : d.length = uint32 l) (hn : n < 5 + d.length)
    (hin : r.input = (t :: (l ++ d)).take n) :
    ∃ e, ReadMessage r = (.error e, { r with input := [] }) ∧
      (e = .eof ∨ e = .unexpectedEOF) ∧
      (e = .eof ↔ n = 0 ∨ n = 1 ∨ n = 5) := by
  rcases Nat.eq_zero_or_pos n with h0 | hpos
  · subst h0
    refine ⟨.eof, readMessage_empty r hr (by simpa using hin), Or.inl rfl, by simp⟩
  · obtain ⟨m, rfl⟩ : ∃ m, n = m + 1 := ⟨n - 1, by omega⟩
    rw [List.take_succ_cons] at hin
    by_cases hm : m < 4
    · have htake : (l ++ d).take m = l.take m := by
        rw [List.take_append_of_le_length (by omega)]
      rw [htake] at hin
      have hlen : (l.take m).length = m := by simp [hl]; omega
      have key := readMessage_short_header r t (l.take m) hr hin (by omega)
      refine ⟨_, key, ?_, ?_⟩
      · split <;> simp
      · have hiff : (l.take m).isEmpty = true ↔ m = 0 := by
          rw [List.isEmpty_iff, ← List.length_eq_zero, hlen]
        by_cases hz : m = 0
        · simp [hiff.mpr hz, hz]
        · have : (l.take m).isEmpty = false := by
            cases hE : (l.take m).isEmpty
            · rfl
            · exact absurd (hiff.mp hE) hz
          simp [this]; omega
    · have htake : (l ++ d).take m = l ++ d.take (m - 4) := by
        rw [List.take_append_eq_append_take, hl, List.take_of_length_le (by omega)]
      rw [htake] at hin
      have hlen : (d.take (m - 4)).length = m - 4 := by
        rw [List.length_take]; omega
      have key := readMessage_short_payload r t l (d.take (m - 4)) hr hl (by omega) hin
        (by omega)
      refine ⟨_, key, ?_, ?_⟩
      · split <;> simp
      · have hiff : (d.take (m - 4)).isEmpty = true ↔ m = 4 := by
          rw [List.isEmpty_iff, ← List.length_eq_zero, hlen]; omega
        by_cases hz : m = 4
        · simp [hiff.mpr hz, hz]
        · have : (d.take (m - 4)).isEmpty = false := by
            cases hE : (d.take (m - 4)).isEmpty
            · rfl
            · exact absurd (hiff.mp hE) hz
          simp [this]; omega

theorem C19_truncated_frame_witness :
    ∃ e, ReadMessage (streamOf [10, 0, 0, 0, 3, 7]) =
        (.error e, { streamOf [10, 0, 0, 0, 3, 7] with input := [] }) ∧
      (e = .eof ∨ e = .unexpectedEOF) ∧
      (e = .eof ↔ 6 = 0 ∨ 6 = 1 ∨ 6 = 5) :=
  C19_truncated_frame (streamOf [10, 0, 0, 0, 3, 7]) 10 [0, 0, 0, 3] [7, 8, 9] 6 rfl rfl
    (by decide) (by decide) (by decide) rfl

/-! ## The handshake on a frame `CreateHandshake` makes -/

theorem frameBytes_newMessage (t : Byte) (d : List Byte) (hd : d.length < 2 ^ 32) :
    frameBytes (NewMessage t d) = t :: (putUint32 d.length ++ d) := by
  have hlen : d.length % 2 ^ 32 = d.length := Nat.mod_eq_of_lt hd
  rw [frameBytes_eq]
  simp only [NewMessage, hlen]
  by_cases h : d.length > 0
  · simp [h]
  · have : d = [] := List.length_eq_zero.mp (by omega)
    simp [this]

/-- The handshake on a stream that accepts writes and delivers a frame of any
type `t` whose payload is version `v`, the inner IP `ip` and key bytes `k`:
the session is recorded with `ip` and the acknowledgement written, whatever
`t`, `v` and `k` are. -/
theorem handshake_on_payload (s : Server) (conn : Nat) (clientAddr : String) (now : Int)
    (t v : Byte) (ip k rest : List Byte)
    (hlen : 2 + ip.length + k.length ≤ 1048576)
    (hkey : s.config.SharedKey.length = 32)
    (hc : (s.conns conn).closed = false) (hb : (s.conns conn).broken = false)
    (hin : (s.conns conn).input =
      frameBytes (NewMessage t (v :: ip.length :: (ip ++ k))) ++ rest) :
    handshake s conn clientAddr now =
      ({ s with
          clients := mapSet s.clients clientAddr
            { ID := clientAddr, Conn := conn, IP := ip,
              Cipher := { key := s.config.SharedKey }, LastSeen := now }
          conns := setConn s.conns conn
            ({ s.conns conn with
                input := rest
                output := (s.conns conn).output ++ [2, 0, 0, 0, 2, 79, 75] }) },
       some { ID := clientAddr, Conn := conn, IP := ip,
              Cipher := { key := s.config.SharedKey }, LastSeen := now }) := by
  have hdl : (v :: ip.length :: (ip ++ k)).length = 2 + ip.length + k.length := by
    simp only [List.length_cons, List.length_append]; omega
  have hu : uint32 (putUint32 (v :: ip.length :: (ip ++ k)).length)
      = (v :: ip.length :: (ip ++ k)).length := uint32_putUint32 _ (by omega)
  have hbytes : (s.conns conn).input =
      t :: (putUint32 (v :: ip.length :: (ip ++ k)).length ++
        ((v :: ip.length :: (ip ++ k)) ++ rest)) := by
    rw [hin, frameBytes_newMessage t _ (by omega)]
    simp only [List.cons_append, List.append_assoc]
  exact handshake_accepts s conn clientAddr now t
    (putUint32 (v :: ip.length :: (ip ++ k)).length) (v :: ip.length :: (ip ++ k)) rest
    { Version := v, ClientIP := ip, SharedKey := k } hc hb rfl (by rw [hu]; omega) hu.symm hbytes
    (parseHandshake_payload v ip k) hkey

theorem createHandshake_eq (v : Byte) (ip k : List Byte) (hip : ip.length ≤ 255) :
    CreateHandshake v ip k = NewMessage TypeHandshake (v :: ip.length :: (ip ++ k)) := by
  have hmod : ip.length % 256 = ip.length := Nat.mod_eq_of_lt (by omega)
  simp only [CreateHandshake, hmod]

/-! ## What a handler has written stays written -/

theorem readFull_output (c : Conn) (n : Nat) : (readFull c n).2.output = c.output := by
  unfold readFull
  split
  · rfl
  · split
    · rfl
    · split <;> rfl

theorem readMessage_output (c : Conn) : (ReadMessage c).2.output = c.output := by
  unfold ReadMessage
  rcases h1 : readFull c 1 with ⟨r1, c1⟩
  have e1 : c1.output = c.output := by have := readFull_output c 1; rw [h1] at this; exact this
  cases r1 with
  | error e => exact e1
  | ok t =>
    dsimp only
    rcases h2 : readFull c1 4 with ⟨r2, c2⟩
    have e2 : c2.output = c1.output := by
      have := readFull_output c1 4; rw [h2] at this; exact this
    cases r2 with
    | error e => exact e2.trans e1
    | ok l =>
      dsimp only
      split
      · exact e2.trans e1
      · split
        · rcases h3 : readFull c2 (uint32 l) with ⟨r3, c3⟩
          have e3 : c3.output = c2.output := by
            have := readFull_output c2 (uint32 l); rw [h3] at this; exact this
          cases r3 with
          | error e => exact e3.trans (e2.trans e1)
          | ok d => exact e3.trans (e2.trans e1)
        · exact e2.trans e1

theorem write_output (c : Conn) (b : List Byte) :
    ∃ more, (c.Write b).2.output = c.output ++ more := by
  unfold Conn.Write
  split
  · exact ⟨[], by simp⟩
  · split
    · exact ⟨[], by simp⟩
    · exact ⟨b, rfl⟩

theorem writeMessage_output (c : Conn) (msg : Message) :
    ∃ more, (WriteMessage c msg).2.output = c.output ++ more := by
  unfold WriteMessage
  rcases h1 : c.Write [msg.Header.Type_] with ⟨r1, c1⟩
  obtain ⟨m1, e1⟩ : ∃ m, c1.output = c.output ++ m := by
    have := write_output c [msg.Header.Type_]; rw [h1] at this; exact this
  cases r1 with
  | error e => exact ⟨m1, e1⟩
  | ok u =>
    dsimp only
    rcases h2 : c1.Write (putUint32 msg.Header.Length) with ⟨r2, c2⟩
    obtain ⟨m2, e2⟩ : ∃ m, c2.output = c1.output ++ m := by
      have := write_output c1 (putUint32 msg.Header.Length); rw [h2] at this; exact this
    cases r2 with
    | error e => exact ⟨m1 ++ m2, by rw [e2, e1, List.append_assoc]⟩
    | ok u2 =>
      dsimp only
      split
      · rcases h3 : c2.Write msg.Data with ⟨r3, c3⟩
        obtain ⟨m3, e3⟩ : ∃ m, c3.output = c2.output ++ m := by
          have := write_output c2 msg.Data; rw [h3] at this; exact this
        cases r3 with
        | error e => exact ⟨m1 ++ m2 ++ m3, by rw [e3, e2, e1]; simp⟩
        | ok u3 => exact ⟨m1 ++ m2 ++ m3, by rw [e3, e2, e1]; simp⟩
      · exact ⟨m1 ++ m2, by rw [e2, e1, List.append_assoc]⟩

/-- One pass of the frame loop only appends to what its stream has been
sent. -/
theorem frameBody_output (ks : Keystream) (s : Server) (client : Client) (now : Int) :
    ∃ more, ((frameBody ks s client now).1.conns client.Conn).output =
      (s.conns client.Conn).output ++ more := by
  have hread := readMessage_output (s.conns client.Conn)
  unfold frameBody
  dsimp only
  rcases hr : ReadMessage (s.conns client.Conn) with ⟨res, c1⟩
  rw [hr] at hread
  have hout : c1.output = (s.conns client.Conn).output := hread
  clear hread
  cases res with
  | error e => exact ⟨[], by simp [setConn_same, hout]⟩
  | ok message =>
    dsimp only
    split
    · split
      · exact ⟨[], by simp [setConn_same, hout]⟩
      · split
        · exact ⟨[], by simp [setConn_same, hout]⟩
        · exact ⟨[], by simp [setConn_same, hout]⟩
    · split
      · obtain ⟨m, hm⟩ := writeMessage_output c1 (NewMessage TypeKeepAlive [])
        refine ⟨m, ?_⟩
        simp only [setConn_same]
        rw [hm, hout]
      · split
        · exact ⟨[], by simp [setConn_same, hout]⟩
        · exact ⟨[], by simp [setConn_same, hout]⟩

theorem frameLoop_output (ks : Keystream) (times : Nat → Int) (fuel : Nat) :
    ∀ (k : Nat) (s s2 : Server) (client : Client),
      frameLoop ks times fuel k s client = some s2 →
      ∃ more, (s2.conns client.Conn).output = (s.conns client.Conn).output ++ more := by
  induction fuel with
  | zero => intro k s s2 client h; simp [frameLoop] at h
  | succ n ih =>
    intro k s s2 client h
    unfold frameLoop at h
    obtain ⟨m1, hm1⟩ := frameBody_output ks s client (times k)
    rcases hfb : frameBody ks s client (times k) with ⟨s1, ctl⟩
    rw [hfb] at h hm1
    cases ctl with
    | next =>
      obtain ⟨m2, hm2⟩ := ih (k + 1) s1 s2 client h
      exact ⟨m1 ++ m2, by rw [hm2, hm1, List.append_assoc]⟩
    | break_ =>
      simp only [Option.some.injEq] at h
      refine ⟨m1, ?_⟩
      rw [← h]
      simp only [Server.closeConn, setConn_same, Conn.Close]
      exact hm1
    | return_ =>
      simp only [Option.some.injEq] at h
      refine ⟨m1, ?_⟩
      rw [← h]
      simp only [Server.closeConn, setConn_same, Conn.Close]
      exact hm1

/-! ## Handshake: type, version, success -/

/-- C12 (handshake type check), the code at a failing input: a first frame of
type DATA (10) whose payload parses as a handshake is treated as a
handshake: the session is recorded, HANDSHAKE_ACK is written and the stream
stays open (the mismatch is only logged).  The other half of the claim
holds: a HANDSHAKE frame whose payload does not parse gets no
acknowledgement, no session, and the stream is closed. -/
theorem C12_wrong_type_accepted :
    (handshake (freshServer wrongTypeFrame false) 0 "192.0.2.1:5000" 0).1.clients =
      [("192.0.2.1:5000", exampleClientA)] ∧
    (handshake (freshServer wrongTypeFrame false) 0 "192.0.2.1:5000" 0).1.conns 0 =
      { input := [], output := [2, 0, 0, 0, 2, 79, 75], closed := false, broken := false } ∧
    (handleConnection exampleKeystream (freshServer wrongTypeFrame false) 0 "192.0.2.1:5000"
      (fun _ => 0)).map (fun s => (s.conns 0).output) = some [2, 0, 0, 0, 2, 79, 75] ∧
    (handshake (freshServer unparsableFrame false) 0 "192.0.2.1:5000" 0).1.clients = [] ∧
    (handshake (freshServer unparsableFrame false) 0 "192.0.2.1:5000" 0).1.conns 0 =
      { input := [], output := [], closed := true, broken := false } := by
  refine ⟨rfl, rfl, rfl, rfl, rfl⟩

/-- C13 (handshake version check), refuted: a HANDSHAKE with version 2, a
valid inner IP and the matching key is accepted: the session is created and
HANDSHAKE_ACK is sent. -/
theorem C13_version_two_accepted :
    ParseHandshake (versionTwoFrame.drop 5) =
      .ok { Version := 2, ClientIP := exampleIP, SharedKey := exampleConfig.SharedKey } ∧
    (handshake (freshServer versionTwoFrame false) 0 "192.0.2.1:5000" 0).1.clients =
      [("192.0.2.1:5000", exampleClientA)] ∧
    (handshake (freshServer versionTwoFrame false) 0 "192.0.2.1:5000" 0).1.conns 0 =
      { input := [], output := [2, 0, 0, 0, 2, 79, 75], closed := false, broken := false } := by
  refine ⟨rfl, rfl, rfl⟩

/-- C13 as amended: the version byte is carried and parsed but not checked.
For every version byte `v`, also `v != 1`, a HANDSHAKE frame with an inner
IP of at most 255 bytes and the matching key, read from a stream that
accepts writes by a server whose key has 32 bytes, is accepted: the
handshake hands the session with that inner IP to the frame loop, the
session is in the table under the address of the peer, and HANDSHAKE_ACK
"OK" is appended to the stream. -/
theorem C13_version_not_checked (s : Server) (conn : Nat) (clientAddr : String) (now : Int)
    (v : Byte) (ip rest : List Byte)
    (hkey : s.config.SharedKey.length = 32) (hip : ip.length ≤ 255)
    (hc : (s.conns conn).closed = false) (hb : (s.conns conn).broken = false)
    (hin : (s.conns conn).input = frameBytes (CreateHandshake v ip s.config.SharedKey) ++ rest) :
    ∃ client,
      (handshake s conn clientAddr now).2 = some client ∧
      client.IP = ip ∧ client.ID = clientAddr ∧
      (clientAddr, client) ∈ (handshake s conn clientAddr now).1.clients ∧
      ((handshake s conn clientAddr now).1.conns conn).output =
        (s.conns conn).output ++ [2, 0, 0, 0, 2, 79, 75] ∧
      ((handshake s conn clientAddr now).1.conns conn).closed = false := by
  rw [createHandshake_eq v ip _ hip] at hin
  have h := handshake_on_payload s conn clientAddr now TypeHandshake v ip s.config.SharedKey rest
    (by omega) hkey hc hb hin
  rw [h]
  refine ⟨_, rfl, rfl, rfl, ?_, ?_, ?_⟩
  · simp [mapSet]
  · simp [setConn_same]
  · simp [setConn_same, hc]

theorem C13_version_not_checked_witness :
    ∃ client,
      (handshake (freshServer versionTwoFrame false) 0 "192.0.2.1:5000" 0).2 = some client ∧
      client.IP = exampleIP ∧ client.ID = "192.0.2.1:5000" ∧
      ("192.0.2.1:5000", client) ∈
        (handshake (freshServer versionTwoFrame false) 0 "192.0.2.1:5000" 0).1.clients ∧
      ((handshake (freshServer versionTwoFrame false) 0 "192.0.2.1:5000" 0).1.conns 0).output =
        ((freshServer versionTwoFrame false).conns 0).output ++ [2, 0, 0, 0, 2, 79, 75] ∧
      ((handshake (freshServer versionTwoFrame false) 0 "192.0.2.1:5000" 0).1.conns 0).closed
        = false :=
  C13_version_not_checked (freshServer versionTwoFrame false) 0 "192.0.2.1:5000" 0 2 exampleIP []
    (by decide) (by decide) rfl rfl (by decide)

/-- C14 (handshake success): for every well-formed HANDSHAKE frame with
version 1, inner IP `ip` (at most 255 bytes) and the 32-byte key of the
server, received on a fresh stream that accepts writes by a server whose
table is empty, the handshake of `handleConnection` leaves the table with
exactly one session, whose `inner_ip` is `ip`, and has written exactly
HANDSHAKE_ACK with data "OK", the bytes `02 00 00 00 02 4F 4B`; whatever
`handleConnection` writes later in its run comes after these bytes. -/
theorem C14_handshake_success (ks : Keystream) (s : Server) (conn : Nat) (clientAddr : String)
    (times : Nat → Int) (ip rest : List Byte)
    (hempty : s.clients = []) (hkey : s.config.SharedKey.length = 32) (hip : ip.length ≤ 255)
    (hc : (s.conns conn).closed = false) (hb : (s.conns conn).broken = false)
    (hout : (s.conns conn).output = [])
    (hin : (s.conns conn).input = frameBytes (CreateHandshake 1 ip s.config.SharedKey) ++ rest) :
    ∃ client,
      (handshake s conn clientAddr (times 0)).2 = some client ∧
      client.IP = ip ∧
      (handshake s conn clientAddr (times 0)).1.clients = [(clientAddr, client)] ∧
      ((handshake s conn clientAddr (times 0)).1.conns conn).output =
        [0x02, 0x00, 0x00, 0x00, 0x02, 0x4F, 0x4B] ∧
      ∃ s2 more, handleConnection ks s conn clientAddr times = some s2 ∧
        (s2.conns conn).output = [0x02, 0x00, 0x00, 0x00, 0x02, 0x4F, 0x4B] ++ more := by
  rw [createHandshake_eq 1 ip _ hip] at hin
  have h := handshake_on_payload s conn clientAddr (times 0) TypeHandshake 1 ip
    s.config.SharedKey rest (by omega) hkey hc hb hin
  refine ⟨_, by rw [h], rfl, by rw [h]; simp [mapSet, hempty], by rw [h]; simp [setConn_same, hout],
    ?_⟩
  obtain ⟨s2, hs2⟩ := handleConnection_returns ks s conn clientAddr times
  refine ⟨s2, ?_⟩
  have hs2' := hs2
  unfold handleConnection at hs2'
  rw [h] at hs2'
  obtain ⟨more, hmore⟩ := frameLoop_output ks times _ 1 _ s2 _ hs2'
  refine ⟨more, hs2, ?_⟩
  rw [hmore]
  simp [setConn_same, hout]

theorem C14_handshake_success_witness :
    ∃ client,
      (handshake (freshServer (exampleHandshake (List.range 32)) false) 0 "192.0.2.1:5000"
        0).2 = some client ∧
      client.IP = exampleIP ∧
      (handshake (freshServer (exampleHandshake (List.range 32)) false) 0 "192.0.2.1:5000"
        0).1.clients = [("192.0.2.1:5000", client)] ∧
      ((handshake (freshServer (exampleHandshake (List.range 32)) false) 0 "192.0.2.1:5000"
        0).1.conns 0).output = [0x02, 0x00, 0x00, 0x00, 0x02, 0x4F, 0x4B] ∧
      ∃ s2 more, handleConnection exampleKeystream
          (freshServer (exampleHandshake (List.range 32)) false) 0 "192.0.2.1:5000"
          (fun _ => 0) = some s2 ∧
        (s2.conns 0).output = [0x02, 0x00, 0x00, 0x00, 0x02, 0x4F, 0x4B] ++ more :=
  C14_handshake_success exampleKeystream (freshServer (exampleHandshake (List.range 32)) false)
    0 "192.0.2.1:5000" (fun _ => 0) exampleIP [] rfl (by decide) (by decide) rfl rfl rfl
    (by decide)

/-! ## Client inbound data path -/

/-- One pass of the stream reader of the client on a DATA frame whose payload
decrypts to `p`: `p` is appended to the network stream, the TUN gets
nothing, and `bytesIn` grows by `|p|`. -/
theorem serverReaderPass_data (ks : Keystream) (c : client.Client) (l d rest p : List Byte)
    (hc : c.conn.closed = false) (hb : c.conn.broken = false)
    (hl : l.length = 4) (hcap : uint32 l ≤ 1024 * 1024) (hd : d.length = uint32 l)
    (hin : c.conn.input = TypeData :: (l ++ (d ++ rest)))
    (hdec : c.cipher.Decrypt ks d = .ok p) :
    client.serverReaderPass ks c =
      ({ c with
          conn := { c.conn with input := rest, output := c.conn.output ++ p }
          bytesIn := (c.bytesIn + p.length) % 2 ^ 64 },
       .next) := by
  have hread := readMessage_frame c.conn TypeData l d rest hc hl hcap hd hin
  simp only [client.serverReaderPass, hread, hdec, if_true, Conn.Write, hc, hb]
  simp

/-- C15 (client inbound data path), the code at a failing input: on a DATA
frame whose payload decrypts to the packet `examplePacket`, one pass of the
stream reader of the client writes the packet to the network stream, leaves
the TUN without any packet, and adds the length of the packet to `bytesIn`. -/
theorem C15_plaintext_written_to_stream :
    Cipher.Decrypt exampleKeystream exampleEndpoint.cipher exampleRecord = .ok examplePacket ∧
    (client.serverReaderPass exampleKeystream exampleEndpoint).1.tun = [] ∧
    (client.serverReaderPass exampleKeystream exampleEndpoint).1.conn.output = examplePacket ∧
    (client.serverReaderPass exampleKeystream exampleEndpoint).1.bytesIn = 22 := by
  refine ⟨rfl, rfl, rfl, rfl⟩

/-! ## TUN egress -/

/-- A stream that is closed or refuses writes is left as it is by
`WriteMessage`. -/
theorem writeMessage_refused (c : Conn) (msg : Message)
    (h : ¬ (c.closed = false ∧ c.broken = false)) : (WriteMessage c msg).2 = c := by
  unfold WriteMessage Conn.Write
  by_cases hc : c.closed = true
  · simp [hc]
  · have hc2 : c.closed = false := by simpa using hc
    have hb : c.broken = true := by
      cases hbr : c.broken
      · exact absurd ⟨hc2, hbr⟩ h
      · rfl
    simp [hc2, hb]

theorem encrypt_short_random (ks : Keystream) (c : Cipher) (rnd p : List Byte)
    (h : ¬ 16 ≤ rnd.length) : ∃ e, c.Encrypt ks rnd p = .error e := by
  simp [Cipher.Encrypt, readRandom, BlockSize, h]

theorem setConn_self (conns : Nat → Conn) (k : Nat) : setConn conns k (conns k) = conns := by
  funext j
  simp only [setConn]
  split
  · rename_i h; rw [h]
  · rfl

/-- C7 as amended (TUN egress routing): in every state the server can be in,
for every packet `P` read from the TUN that parses: if no session has
`inner_ip` equal to the text form of the destination of `P`, the state is
unchanged; otherwise there is a session `e` of the table with that
`inner_ip` such that no stream but that of `e` changes, in particular none of
a session with another `inner_ip`; when the random source yields an IV and
the stream of `e` accepts writes, that stream receives exactly the bytes of
one frame, of type DATA (10), whose payload decrypts under the shared key to
exactly `P`; when not, no stream receives anything.  The table and the TUN
are unchanged. -/
theorem C7_tun_egress_at_most_one_frame (ks : Keystream) (ipString : List Byte → List Byte)
    (cfg : Config) (s : Server) (active : List Client) (P rnd : List Byte) (packet : IPPacket)
    (hreach : Reach ks ipString cfg s active) (hparse : ParseIPPacket P = .ok packet) :
    ((∀ e ∈ s.clients, e.2.IP ≠ ipString packet.DstIp) →
      tunReaderPass ks ipString s (.ok P) rnd = s) ∧
    ((∃ e ∈ s.clients, e.2.IP = ipString packet.DstIp) →
      ∃ e ∈ s.clients,
        e.2.IP = ipString packet.DstIp ∧
        (∀ k, k ≠ e.2.Conn → (tunReaderPass ks ipString s (.ok P) rnd).conns k = s.conns k) ∧
        (∀ e2 ∈ s.clients, e2.2.IP ≠ ipString packet.DstIp →
          (tunReaderPass ks ipString s (.ok P) rnd).conns e2.2.Conn = s.conns e2.2.Conn) ∧
        ((16 ≤ rnd.length ∧
            (s.conns e.2.Conn).closed = false ∧ (s.conns e.2.Conn).broken = false) →
          ∃ record,
            (tunReaderPass ks ipString s (.ok P) rnd).conns e.2.Conn =
              { s.conns e.2.Conn with
                output := (s.conns e.2.Conn).output ++ frameBytes (NewMessage TypeData record) } ∧
            (NewMessage TypeData record).Header.Type_ = 10 ∧
            Cipher.Decrypt ks { key := s.config.SharedKey } record = .ok P) ∧
        (¬ (16 ≤ rnd.length ∧
            (s.conns e.2.Conn).closed = false ∧ (s.conns e.2.Conn).broken = false) →
          (tunReaderPass ks ipString s (.ok P) rnd).conns = s.conns)) ∧
    (tunReaderPass ks ipString s (.ok P) rnd).clients = s.clients ∧
    (tunReaderPass ks ipString s (.ok P) rnd).tun = s.tun := by
  obtain ⟨⟨-, hdist, -, hkey⟩, -⟩ := reach_tableInv ks ipString cfg s active hreach
  obtain ⟨hcl, -, -, htun⟩ := tunReaderPass_shape ks ipString s (.ok P) rnd
  refine ⟨?_, ?_, hcl, htun⟩
  · intro hno
    have hfind : s.clients.find? (fun e => decide (e.2.IP = ipString packet.DstIp)) = none := by
      rw [List.find?_eq_none]
      intro e he
      simpa using hno e he
    simp only [tunReaderPass, hparse, hfind]
  · rintro ⟨e0, he0, hip0⟩
    cases hfind : s.clients.find? (fun e => decide (e.2.IP = ipString packet.DstIp)) with
    | none =>
      have := List.find?_eq_none.mp hfind e0 he0
      simp [hip0] at this
    | some e =>
      have he : e ∈ s.clients := List.mem_of_find?_eq_some hfind
      have hip : e.2.IP = ipString packet.DstIp := by
        have := List.find?_some hfind
        simpa using this
      have hconns : ∃ c, (tunReaderPass ks ipString s (.ok P) rnd).conns =
          setConn s.conns e.2.Conn c := by
        simp only [tunReaderPass, hparse, hfind]
        split
        · exact ⟨s.conns e.2.Conn, (setConn_self _ _).symm⟩
        · exact ⟨_, rfl⟩
      obtain ⟨c, hc⟩ := hconns
      refine ⟨e, he, hip, ?_, ?_, ?_, ?_⟩
      · intro k hk
        rw [hc]; exact setConn_other _ _ _ _ hk
      · intro e2 he2 hip2
        rw [hc]
        apply setConn_other
        intro hceq
        have := hdist e2 he2 e he hceq
        subst this
        exact hip2 hip
      · rintro ⟨hrnd, hopen, hnb⟩
        refine ⟨rnd.take 16 ++ XORKeyStream ks e.2.Cipher.key (rnd.take 16) P, ?_, rfl, ?_⟩
        · simp only [tunReaderPass, hparse, hfind, encrypt_eq ks e.2.Cipher rnd P hrnd,
            writeMessage_open _ _ hopen hnb, setConn_same]
        · have hk := hkey e he
          have := decrypt_record ks e.2.Cipher (rnd.take 16) P (by simp [hrnd])
          rw [hk] at this
          rw [hk]
          exact this
      · intro hnot
        by_cases hrnd : 16 ≤ rnd.length
        · have hrefuse : ¬ ((s.conns e.2.Conn).closed = false ∧
              (s.conns e.2.Conn).broken = false) := fun h => hnot ⟨hrnd, h⟩
          simp only [tunReaderPass, hparse, hfind, encrypt_eq ks e.2.Cipher rnd P hrnd]
          have hw := writeMessage_refused (s.conns e.2.Conn)
            (NewMessage TypeData (rnd.take 16 ++ XORKeyStream ks e.2.Cipher.key (rnd.take 16) P))
            hrefuse
          rcases hwm : WriteMessage (s.conns e.2.Conn)
            (NewMessage TypeData (rnd.take 16 ++ XORKeyStream ks e.2.Cipher.key (rnd.take 16) P))
            with ⟨res, c2⟩
          rw [hwm] at hw
          simp only at hw
          subst hw
          exact setConn_self _ _
        · obtain ⟨err, herr⟩ := encrypt_short_random ks e.2.Cipher rnd P hrnd
          simp only [tunReaderPass, hparse, hfind, herr]

theorem C7_tun_egress_at_most_one_frame_witness :
    ∃ e ∈ afterFirstHandshake.clients,
      e.2.IP = dottedDecimal exampleParsed.DstIp ∧
      (∀ k, k ≠ e.2.Conn →
        (tunReaderPass exampleKeystream dottedDecimal afterFirstHandshake (.ok examplePacket)
          (List.range 16)).conns k = afterFirstHandshake.conns k) ∧
      (∀ e2 ∈ afterFirstHandshake.clients, e2.2.IP ≠ dottedDecimal exampleParsed.DstIp →
        (tunReaderPass exampleKeystream dottedDecimal afterFirstHandshake (.ok examplePacket)
          (List.range 16)).conns e2.2.Conn = afterFirstHandshake.conns e2.2.Conn) ∧
      ((16 ≤ (List.range 16).length ∧
          (afterFirstHandshake.conns e.2.Conn).closed = false ∧
          (afterFirstHandshake.conns e.2.Conn).broken = false) →
        ∃ record,
          (tunReaderPass exampleKeystream dottedDecimal afterFirstHandshake (.ok examplePacket)
            (List.range 16)).conns e.2.Conn =
            { afterFirstHandshake.conns e.2.Conn with
              output := (afterFirstHandshake.conns e.2.Conn).output ++
                frameBytes (NewMessage TypeData record) } ∧
          (NewMessage TypeData record).Header.Type_ = 10 ∧
          Cipher.Decrypt exampleKeystream { key := afterFirstHandshake.config.SharedKey } record =
            .ok examplePacket) ∧
      (¬ (16 ≤ (List.range 16).length ∧
          (afterFirstHandshake.conns e.2.Conn).closed = false ∧
          (afterFirstHandshake.conns e.2.Conn).broken = false) →
        (tunReaderPass exampleKeystream dottedDecimal afterFirstHandshake (.ok examplePacket)
          (List.range 16)).conns = afterFirstHandshake.conns) :=
  (C7_tun_egress_at_most_one_frame exampleKeystream dottedDecimal exampleConfig
    afterFirstHandshake [exampleClientA] examplePacket (List.range 16) exampleParsed
    (Reach.connect _ _ _ _ _ _ Reach.start) rfl).2.1
    ⟨("192.0.2.1:5000", exampleClientA), by decide, by decide⟩

/-- C7 (TUN egress routing), refuted: after a peer has shaken hands claiming
"10.0.0.2" and sent DISCONNECT, the server is in a state it can reach whose
table still holds that session, its stream closed; a packet for 10.0.0.2
read from the TUN parses and a session holds its destination, yet the pass
of the TUN reader writes no frame: every stream is as before. -/
theorem C7_closed_stream_no_frame_counterexample :
    Reach exampleKeystream dottedDecimal exampleConfig afterDisconnect [] ∧
    afterDisconnect.clients = [("192.0.2.1:5000", exampleClientA)] ∧
    (afterDisconnect.conns 0).closed = true ∧
    ParseIPPacket examplePacket = .ok exampleParsed ∧
    exampleClientA.IP = dottedDecimal exampleParsed.DstIp ∧
    (tunReaderPass exampleKeystream dottedDecimal afterDisconnect (.ok examplePacket)
      (List.range 16)).conns = afterDisconnect.conns ∧
    (afterDisconnect.conns 0).output = [2, 0, 0, 0, 2, 79, 75] := by
  refine ⟨?_, rfl, rfl, rfl, by decide, ?_, rfl⟩
  · exact Reach.frame beforeDisconnect [exampleClientA] exampleClientA 0
      (Reach.connect _ _ _ _ _ _ Reach.start) (List.mem_singleton.mpr rfl)
  · have h : tunReaderPass exampleKeystream dottedDecimal afterDisconnect (.ok examplePacket)
        (List.range 16) =
        { afterDisconnect with conns := setConn afterDisconnect.conns 0 (afterDisconnect.conns 0) } :=
      rfl
    rw [h]
    exact setConn_self _ _

end Vpn
